import Mathlib

/-!
Verification of `tools/webassembly.py`: a minimal WebAssembly binary reader
and section rewriter.  Files are modelled as lists of natural numbers (the
byte values); Python file cursors become explicit positions; Python
exceptions (assertion failures, `IndexError`, `ValueError`,
`UnicodeDecodeError`, varint decode errors) become `none`.  Python `str`
values are modelled by their UTF-8 code unit sequences, which is faithful
because strict UTF-8 decoding (the `bytes.decode('utf-8')` used by the
source) is injective, so `encode('utf-8')` is the identity on this
representation.

Loops of the source are embedded as fuel-indexed structural recursions so
that every definition evaluates by kernel reduction; the top-level wrappers
supply fuel that is provably sufficient (see the `*_congr` lemmas, which
show the result is independent of the fuel once the fuel dominates the
number of remaining loop iterations).
-/

set_option synthInstance.maxSize 512

namespace Wasm

/-- Modelled from the spec: the third-party varint codec's
`encode_unsigned` (`leb128.u.encode`, wrapped by `toLEB` in the source)
produces the minimal unsigned variable-length encoding, 7 payload bits per
byte, continuation bit set on all but the last byte.  Fuel-indexed helper;
`toLEB` supplies sufficient fuel and `toLEB_eq` proves the defining
recurrence. -/
def toLEBAux : Nat → Nat → List Nat
  | 0, n => [n]
  | fuel + 1, n => if n < 128 then [n] else (n % 128 + 128) :: toLEBAux fuel (n / 128)

/-- `toLEB(num)` of the source: minimal unsigned LEB128 encoding. -/
def toLEB (n : Nat) : List Nat := toLEBAux n n

/-- Modelled from the spec: the third-party varint codec's
`decode_unsigned` (`leb128.u.decode_reader`) reads bytes until a byte with
the continuation bit clear and fails with a decode error if the stream ends
first.  Returns the value and the number of bytes consumed. -/
def decodeULEB : List Nat → Option (Nat × Nat)
  | [] => none
  | b :: rest =>
    if b < 128 then some (b, 1)
    else
      match decodeULEB rest with
      | none => none
      | some (v, k) => some (b % 128 + 128 * v, k + 1)

/-- Modelled from the spec: the third-party varint codec's `decode_signed`
(`leb128.i.decode_reader`): same byte consumption as the unsigned decoder
but the final byte's bit 6 sign-extends.  Returns the value and the number
of bytes consumed. -/
def decodeSLEB : List Nat → Option (Int × Nat)
  | [] => none
  | b :: rest =>
    if b < 128 then some (if b < 64 then (b : Int) else (b : Int) - 128, 1)
    else
      match decodeSLEB rest with
      | none => none
      | some (v, k) => some ((b % 128 : Nat) + 128 * v, k + 1)

/-- `Module.readByte`: `self.buf.read(1)[0]`, an `IndexError` (hence
failure) at end of file. -/
def readByteAt (data : List Nat) (pos : Nat) : Option Nat := data[pos]?

/-- `Module.readULEB`: decode an unsigned varint at `pos`, returning the
value and the new cursor position. -/
def decodeULEBFrom (data : List Nat) (pos : Nat) : Option (Nat × Nat) :=
  match decodeULEB (data.drop pos) with
  | none => none
  | some (v, k) => some (v, pos + k)

/-- `Module.readSLEB`: decode a signed varint at `pos`, returning the value
and the new cursor position. -/
def decodeSLEBFrom (data : List Nat) (pos : Nat) : Option (Int × Nat) :=
  match decodeSLEB (data.drop pos) with
  | none => none
  | some (v, k) => some (v, pos + k)

/-- A UTF-8 continuation byte. -/
def isCont (b : Nat) : Bool := 0x80 ≤ b && b ≤ 0xBF

/-- Strict UTF-8 validity of a byte sequence, as checked by Python's
`bytes.decode('utf-8')`: rejects stray continuation bytes, overlong
encodings, surrogates and code points above U+10FFFF. -/
def validUtf8 : List Nat → Bool
  | [] => true
  | b :: rest =>
    if b < 0x80 then validUtf8 rest
    else if b < 0xC2 then false
    else if b ≤ 0xDF then
      match rest with
      | c1 :: r1 => isCont c1 && validUtf8 r1
      | [] => false
    else if b ≤ 0xEF then
      match rest with
      | c1 :: c2 :: r2 =>
        (if b = 0xE0 then decide (0xA0 ≤ c1) && decide (c1 ≤ 0xBF)
         else if b = 0xED then decide (0x80 ≤ c1) && decide (c1 ≤ 0x9F)
         else isCont c1) && isCont c2 && validUtf8 r2
      | _ => false
    else if b ≤ 0xF4 then
      match rest with
      | c1 :: c2 :: c3 :: r3 =>
        (if b = 0xF0 then decide (0x90 ≤ c1) && decide (c1 ≤ 0xBF)
         else if b = 0xF4 then decide (0x80 ≤ c1) && decide (c1 ≤ 0x8F)
         else isCont c1) && isCont c2 && isCont c3 && validUtf8 r3
      | _ => false
    else false

/-- `Module.readString`: read an unsigned varint length, then
`self.buf.read(size)` — which yields at most `size` bytes, silently fewer
at end of file — then `decode('utf-8')`, which fails exactly when the bytes
actually read are not valid UTF-8.  Returns the string (as its UTF-8
bytes) and the new cursor position. -/
def readStringAt (data : List Nat) (pos : Nat) : Option (List Nat × Nat) :=
  match decodeULEBFrom data pos with
  | none => none
  | some (n, p) =>
    let bs := (data.drop p).take n
    if validUtf8 bs then some (bs, p + bs.length) else none

/-- The `Limits` namedtuple. -/
structure Limits where
  flags : Nat
  initial : Nat
  maximum : Nat
deriving Repr, DecidableEq

/-- `Module.readLimits`: a flags byte, an initial varint, and a maximum
varint present exactly when bit 0 of the flags is set. -/
def readLimitsAt (data : List Nat) (pos : Nat) : Option (Limits × Nat) :=
  match readByteAt data pos with
  | none => none
  | some flags =>
    match decodeULEBFrom data (pos + 1) with
    | none => none
    | some (initial, p2) =>
      if flags % 2 = 1 then
        match decodeULEBFrom data p2 with
        | none => none
        | some (mx, p3) => some (⟨flags, initial, mx⟩, p3)
      else some (⟨flags, initial, 0⟩, p2)

/-- The `Section` namedtuple: type code, declared payload size, payload
offset.  Section type codes follow `SecType` of the source
(CUSTOM = 0, IMPORT = 2, ...). -/
structure Section where
  type : Nat
  size : Nat
  offset : Nat
deriving Repr, DecidableEq

/-- `Module.readSectionHeaders`: `while self.buf.tell() != self.size`, read
a type byte and a size varint, record the section, insert non-custom
sections into the type-indexed map failing on a duplicate, then seek to
`offset + size`.  Fuel-indexed; `readSectionHeaders` supplies sufficient
fuel and `readSectionHeadersAux_congr` shows the fuel is irrelevant once it
dominates the remaining iteration count. -/
def readSectionHeadersAux (data : List Nat) :
    Nat → Nat → List Section → List (Nat × Section) →
    Option (List Section × List (Nat × Section))
  | 0, _, _, _ => none
  | fuel + 1, pos, sections, map =>
    if pos = data.length then some (sections, map)
    else
      match readByteAt data pos with
      | none => none
      | some ty =>
        match decodeULEBFrom data (pos + 1) with
        | none => none
        | some (ssize, offset) =>
          let sec : Section := ⟨ty, ssize, offset⟩
          if ty ≠ 0 then
            if (map.lookup ty).isSome then none
            else readSectionHeadersAux data fuel (offset + ssize)
                   (sections ++ [sec]) (map ++ [(ty, sec)])
          else readSectionHeadersAux data fuel (offset + ssize)
                 (sections ++ [sec]) map

/-- The section header scan started just after the 8-byte header. -/
def readSectionHeaders (data : List Nat) :
    Option (List Section × List (Nat × Section)) :=
  readSectionHeadersAux data (data.length + 1) 8 [] []

/-- The `Module` class after `__init__`: the raw bytes, the ordered section
list, and the type-indexed map of non-custom sections. -/
structure Module where
  data : List Nat
  sections : List Section
  section_map : List (Nat × Section)
deriving Repr, DecidableEq

/-- `Module.__init__`: check the 4-byte magic and 4-byte version (a short
read fails the comparison just as in the source), then scan the section
headers. -/
def openModule (data : List Nat) : Option Module :=
  if data.take 4 = [0x00, 0x61, 0x73, 0x6D] ∧
      (data.drop 4).take 4 = [0x01, 0x00, 0x00, 0x00] then
    match readSectionHeaders data with
    | none => none
    | some (secs, map) => some ⟨data, secs, map⟩
  else none

/-- The bytes of the string "dylink". -/
def str_dylink : List Nat := [0x64, 0x79, 0x6C, 0x69, 0x6E, 0x6B]

/-- The `while needed_count` loop of `parse_dylink_section`: read
`needed_count` length-prefixed strings. -/
def readNeeded (data : List Nat) : Nat → Nat → Option (List (List Nat) × Nat)
  | 0, pos => some ([], pos)
  | n + 1, pos =>
    match readStringAt data pos with
    | none => none
    | some (s, p) =>
      match readNeeded data n p with
      | none => none
      | some (ss, q) => some (s :: ss, q)

/-- `parse_dylink_section`: open the module, require the first section to
be custom with name "dylink", read the four layout varints and the needed
library list.  Returns
`(mem_size, mem_align, table_size, table_align, section_end, needed)`. -/
def parse_dylink_section (data : List Nat) :
    Option (Nat × Nat × Nat × Nat × Nat × List (List Nat)) :=
  match openModule data with
  | none => none
  | some m =>
    match m.sections.head? with
    | none => none
    | some dylink_section =>
      if dylink_section.type = 0 then
        let section_end := dylink_section.offset + dylink_section.size
        match readStringAt data dylink_section.offset with
        | none => none
        | some (section_name, p1) =>
          if section_name = str_dylink then
            match decodeULEBFrom data p1 with
            | none => none
            | some (mem_size, p2) =>
              match decodeULEBFrom data p2 with
              | none => none
              | some (mem_align, p3) =>
                match decodeULEBFrom data p3 with
                | none => none
                | some (table_size, p4) =>
                  match decodeULEBFrom data p4 with
                  | none => none
                  | some (table_align, p5) =>
                    match decodeULEBFrom data p5 with
                    | none => none
                    | some (needed_count, p6) =>
                      match readNeeded data needed_count p6 with
                      | none => none
                      | some (needed, _) =>
                        some (mem_size, mem_align, table_size, table_align,
                          section_end, needed)
          else none
      else none

/-- The `for dyn_needed in needed` loop of `update_dylink_section`: each
name length-prefixed (`encode('utf-8')` is the identity on our string
representation). -/
def encodeNames : List (List Nat) → List Nat
  | [] => []
  | s :: ss => toLEB s.length ++ s ++ encodeNames ss

/-- `update_dylink_section`: parse the existing dylink section, then
rewrite the file as header, new custom section framing (`table_align`
forced to 0, `extra_dynlibs` appended to the needed list), and the original
bytes from `section_end` onward.  Returns the rewritten file bytes. -/
def update_dylink_section (data : List Nat) (extra_dynlibs : List (List Nat)) :
    Option (List Nat) :=
  match parse_dylink_section data with
  | none => none
  | some (mem_size, mem_align, table_size, _table_align, section_end, needed) =>
    let section_name := 0x06 :: str_dylink
    let needed2 := needed ++ extra_dynlibs
    let contents := toLEB mem_size ++ toLEB mem_align ++ toLEB table_size ++
      toLEB 0 ++ toLEB needed2.length ++ encodeNames needed2
    let section_size := section_name.length + contents.length
    some (data.take 8 ++ [0] ++ toLEB section_size ++ section_name ++
      contents ++ data.drop section_end)

/-- `EMSCRIPTEN_METADATA_MAJOR, EMSCRIPTEN_METADATA_MINOR = (0, 3)`. -/
def EMSCRIPTEN_METADATA_MAJOR : Nat := 0

def EMSCRIPTEN_METADATA_MINOR : Nat := 3

/-- `EMSCRIPTEN_ABI_MAJOR, EMSCRIPTEN_ABI_MINOR = (0, 29)`. -/
def EMSCRIPTEN_ABI_MAJOR : Nat := 0

def EMSCRIPTEN_ABI_MINOR : Nat := 29

def WASM_PAGE_SIZE : Nat := 65536

/-- The ambient `shared.Settings` values read by `add_emscripten_metadata`,
made explicit for the embedding (reading a Python global becomes a field
access).  `ambient` stands for every other piece of process state, which
the function must not depend on. -/
structure Settings where
  INITIAL_MEMORY : Nat
  GLOBAL_BASE : Nat
  STANDALONE_WASM : Nat
  ambient : Nat
deriving Repr, DecidableEq

/-- The bytes of the string "emscripten_metadata" (19 characters). -/
def str_emscripten_metadata : List Nat :=
  [0x65, 0x6D, 0x73, 0x63, 0x72, 0x69, 0x70, 0x74, 0x65, 0x6E, 0x5F,
   0x6D, 0x65, 0x74, 0x61, 0x64, 0x61, 0x74, 0x61]

/-- `name = b'\x13emscripten_metadata'`: the section name including its
prefixed size byte. -/
def metadata_name : List Nat := 0x13 :: str_emscripten_metadata

/-- The `contents` bytes built by `add_emscripten_metadata`. -/
def metadata_contents (s : Settings) : List Nat :=
  toLEB EMSCRIPTEN_METADATA_MAJOR ++ toLEB EMSCRIPTEN_METADATA_MINOR ++
  toLEB EMSCRIPTEN_ABI_MAJOR ++ toLEB EMSCRIPTEN_ABI_MINOR ++
  toLEB 1 ++
  toLEB (s.INITIAL_MEMORY / WASM_PAGE_SIZE) ++ toLEB 0 ++
  toLEB s.GLOBAL_BASE ++ toLEB 0 ++ toLEB 0 ++ toLEB 0 ++
  toLEB s.STANDALONE_WASM

/-- `add_emscripten_metadata`: copy the first 8 file bytes, write the
custom-section marker byte 0, the varint total length of name plus
contents, the length-prefixed name, the contents, then the original bytes
from offset 8 onward.  Returns the rewritten file bytes. -/
def add_emscripten_metadata (s : Settings) (data : List Nat) : List Nat :=
  data.take 8 ++ [0] ++
  toLEB (metadata_name.length + (metadata_contents s).length) ++
  metadata_name ++ metadata_contents s ++ data.drop 8

/-- The `ExternType` enumeration of the source. -/
inductive ExternType where
  | FUNC
  | TABLE
  | MEMORY
  | GLOBAL
  | EVENT
deriving Repr, DecidableEq

/-- `ExternType(byte)`: the enumeration constructor, a `ValueError` (hence
failure) outside {0, 1, 2, 3, 4}. -/
def externTypeOfNat : Nat → Option ExternType
  | 0 => some .FUNC
  | 1 => some .TABLE
  | 2 => some .MEMORY
  | 3 => some .GLOBAL
  | 4 => some .EVENT
  | _ => none

/-- The `Import` namedtuple. -/
structure Import where
  type : ExternType
  mod : List Nat
  field : List Nat
deriving Repr, DecidableEq

/-- The `if kind == ... / elif ... / else: assert False` chain of
`get_imports` that consumes the kind-specific payload to advance the
cursor (function: type index varint; global: signed value type and
mutability byte; memory: limits; table: signed element type and limits).
An `EVENT` import reaches the `assert False` arm of the source and
fails. -/
def skipImportDesc (data : List Nat) (kind : ExternType) (pos : Nat) :
    Option Nat :=
  match kind with
  | .FUNC =>
    match decodeULEBFrom data pos with
    | none => none
    | some (_sig, p) => some p
  | .GLOBAL =>
    match decodeSLEBFrom data pos with
    | none => none
    | some (_gt, p) =>
      match readByteAt data p with
      | none => none
      | some _mut => some (p + 1)
  | .MEMORY =>
    match readLimitsAt data pos with
    | none => none
    | some (_l, p) => some p
  | .TABLE =>
    match decodeSLEBFrom data pos with
    | none => none
    | some (_tt, p) =>
      match readLimitsAt data p with
      | none => none
      | some (_l, q) => some q
  | .EVENT => none

/-- The `for i in range(num_imports)` loop of `get_imports`: module and
field names, a kind byte mapped through `ExternType`, then the
kind-specific payload consumed via `skipImportDesc`. -/
def readImportsLoop (data : List Nat) : Nat → Nat → Option (List Import)
  | 0, _ => some []
  | n + 1, pos =>
    match readStringAt data pos with
    | none => none
    | some (mod, p1) =>
      match readStringAt data p1 with
      | none => none
      | some (field, p2) =>
        match readByteAt data p2 with
        | none => none
        | some kb =>
          match externTypeOfNat kb with
          | none => none
          | some kind =>
            match skipImportDesc data kind (p2 + 1) with
            | none => none
            | some p3 =>
              match readImportsLoop data n p3 with
              | none => none
              | some rest => some (⟨kind, mod, field⟩ :: rest)

/-- `get_imports`: open the module; an absent import section (type code 2)
yields the empty list; otherwise read the count varint at the section's
payload offset and run the entry loop. -/
def get_imports (data : List Nat) : Option (List Import) :=
  match openModule data with
  | none => none
  | some m =>
    match m.section_map.lookup 2 with
    | none => some []
    | some import_section =>
      match decodeULEBFrom data import_section.offset with
      | none => none
      | some (num_imports, p) => readImportsLoop data num_imports p

/-- Exact tiling of the region `[p, total)` by section frames: each frame
starts with a type byte matching the recorded section, a size varint whose
decode ends at the recorded payload offset, the payload ends inside the
file, and the frames are contiguous, the last ending exactly at `total`. -/
def sectionsTileB (data : List Nat) (total : Nat) : Nat → List Section → Bool
  | p, [] => decide (p = total)
  | p, s :: rest =>
    decide (readByteAt data p = some s.type) &&
    decide (decodeULEBFrom data (p + 1) = some (s.size, s.offset)) &&
    decide (s.offset + s.size ≤ total) &&
    sectionsTileB data total (s.offset + s.size) rest

/-- Relocate a section record whose frame moved from base position `p` to
base position `q`. -/
def movSec (p q : Nat) (s : Section) : Section :=
  ⟨s.type, s.size, s.offset + q - p⟩

/-- A byte sequence that a signed-varint decode consumes exactly. -/
def isSLEBBytes (l : List Nat) : Bool :=
  match decodeSLEB l with
  | some (_, k) => decide (k = l.length)
  | none => false

/-- The kind-specific payload of an import entry, as written in a wasm
file (function: type index; table: element type then limits; memory:
limits; global: value type then mutability byte).  Signed-varint fields are
carried as their raw bytes. -/
inductive DescE where
  | func (sig : Nat)
  | table (elemBytes : List Nat) (lim : Limits)
  | mem (lim : Limits)
  | glob (valBytes : List Nat) (mutByte : Nat)
deriving Repr, DecidableEq

/-- The kind byte of an import description. -/
def descKindNat : DescE → Nat
  | .func _ => 0
  | .table _ _ => 1
  | .mem _ => 2
  | .glob _ _ => 3

/-- The `ExternType` member of an import description. -/
def descExternType : DescE → ExternType
  | .func _ => .FUNC
  | .table _ _ => .TABLE
  | .mem _ => .MEMORY
  | .glob _ _ => .GLOBAL

/-- Encoding of a limits record: flags byte, initial varint, and a maximum
varint exactly when bit 0 of the flags is set. -/
def encodeLimits (l : Limits) : List Nat :=
  l.flags :: (toLEB l.initial ++ (if l.flags % 2 = 1 then toLEB l.maximum else []))

/-- Encoding of an import description's payload bytes. -/
def encodeDesc : DescE → List Nat
  | .func sig => toLEB sig
  | .table eb lim => eb ++ encodeLimits lim
  | .mem lim => encodeLimits lim
  | .glob vb mb => vb ++ [mb]

/-- Well-formedness of an import description: its signed-varint fields are
exactly consumable. -/
def descOk : DescE → Bool
  | .func _ => true
  | .table eb _ => isSLEBBytes eb
  | .mem _ => true
  | .glob vb _ => isSLEBBytes vb

/-- One import entry as laid out in the import section. -/
structure ImportEntry where
  mod : List Nat
  fld : List Nat
  desc : DescE
deriving Repr, DecidableEq

/-- The byte encoding of one import entry: length-prefixed module and field
names, the kind byte, and the kind-specific payload. -/
def encodeImportEntry (e : ImportEntry) : List Nat :=
  toLEB e.mod.length ++ e.mod ++ toLEB e.fld.length ++ e.fld ++
  [descKindNat e.desc] ++ encodeDesc e.desc

/-- The byte encoding of a list of import entries. -/
def encodeImportEntries : List ImportEntry → List Nat
  | [] => []
  | e :: es => encodeImportEntry e ++ encodeImportEntries es

/-- Well-formedness of an import entry: valid UTF-8 names and a
well-formed description. -/
def entryOk (e : ImportEntry) : Bool :=
  validUtf8 e.mod && validUtf8 e.fld && descOk e.desc

/-- The `Import` record produced for an entry. -/
def entryImport (e : ImportEntry) : Import :=
  ⟨descExternType e.desc, e.mod, e.fld⟩

/-- Concatenated minimal unsigned-varint encodings of a list of values. -/
def encodeULEBs : List Nat → List Nat
  | [] => []
  | v :: vs => toLEB v ++ encodeULEBs vs

/-- Decode `n` consecutive unsigned varints starting at `pos`. -/
def decodeULEBs (data : List Nat) : Nat → Nat → Option (List Nat × Nat)
  | 0, pos => some ([], pos)
  | n + 1, pos =>
    match decodeULEBFrom data pos with
    | none => none
    | some (v, p) =>
      match decodeULEBs data n p with
      | none => none
      | some (vs, q) => some (v :: vs, q)

/-! ### Concrete example files -/

/-- A module whose single section is a custom "dylink" section with
`mem_size = 16`, `mem_align = 4`, `table_size = 8`, `table_align = 4` and
`needed = ["a"]` (the configuration of spec test 4). -/
def exDylink : List Nat :=
  [0x00, 0x61, 0x73, 0x6D, 0x01, 0x00, 0x00, 0x00,
   0, 14,
   6, 0x64, 0x79, 0x6C, 0x69, 0x6E, 0x6B,
   16, 4, 8, 4,
   1, 1, 0x61]

/-- A module with two custom sections (type code 0), each of payload size
1. -/
def exTwoCustoms : List Nat :=
  [0x00, 0x61, 0x73, 0x6D, 0x01, 0x00, 0x00, 0x00,
   0, 1, 0x61,
   0, 1, 0x62]

/-- A module whose import section holds a single entry of kind byte 4
(`Event`), with empty module and field names. -/
def exEventImport : List Nat :=
  [0x00, 0x61, 0x73, 0x6D, 0x01, 0x00, 0x00, 0x00,
   2, 4,
   1, 0, 0, 4]

/-- A module whose first section is custom "dylink" with a declared size of
13, covering the name, the four layout varints, the needed count (1) and
the length byte (3) of the single needed name — but not the name's three
bytes, which lie inside the following type section's frame. -/
def exC10 : List Nat :=
  [0x00, 0x61, 0x73, 0x6D, 0x01, 0x00, 0x00, 0x00,
   0, 13,
   6, 0x64, 0x79, 0x6C, 0x69, 0x6E, 0x6B,
   16, 4, 8, 4,
   1, 3,
   1, 2, 1, 0x61]

/-- A bare 8-byte wasm header (magic and version). -/
def exHeader : List Nat := [0x00, 0x61, 0x73, 0x6D, 0x01, 0x00, 0x00, 0x00]

/-- Four import entries, one of each handled kind, in the order Function,
Global, Memory, Table (the configuration of spec test 3). -/
def exEntries : List ImportEntry :=
  [⟨[0x65], [0x66], .func 0⟩,
   ⟨[0x65], [0x67], .glob [0x7F] 0⟩,
   ⟨[0x65], [0x6D], .mem ⟨0, 1, 0⟩⟩,
   ⟨[0x65], [0x74], .table [0x70] ⟨0, 1, 0⟩⟩]

/-- A module whose import section holds the four entries of `exEntries`. -/
def exImports4 : List Nat :=
  [0x00, 0x61, 0x73, 0x6D, 0x01, 0x00, 0x00, 0x00,
   2, 29,
   4,
   1, 0x65, 1, 0x66, 0, 0,
   1, 0x65, 1, 0x67, 3, 0x7F, 0,
   1, 0x65, 1, 0x6D, 2, 0, 1,
   1, 0x65, 1, 0x74, 1, 0x70, 0, 1]

/-- A module whose import section holds a single entry with kind byte 9,
outside the `ExternType` enumeration. -/
def exBadKind : List Nat :=
  [0x00, 0x61, 0x73, 0x6D, 0x01, 0x00, 0x00, 0x00,
   2, 4,
   1, 0, 0, 9]

end Wasm

namespace Wasm

/-! ### Basic facts about the varint codec -/

theorem toLEBAux_congr : ∀ f g n : Nat, n ≤ f → n ≤ g → toLEBAux f n = toLEBAux g n := by
  intro f
  induction f with
  | zero =>
    intro g n hf hg
    have hn : n = 0 := Nat.le_zero.mp hf
    subst hn
    cases g with
    | zero => rfl
    | succ g => simp [toLEBAux]
  | succ f ih =>
    intro g n hf hg
    cases g with
    | zero =>
      have hn : n = 0 := Nat.le_zero.mp hg
      subst hn
      simp [toLEBAux]
    | succ g =>
      by_cases h : n < 128
      · simp [toLEBAux, h]
      · have h128 : 128 ≤ n := Nat.not_lt.mp h
        have hdiv : n / 128 < n := Nat.div_lt_self (by omega) (by omega)
        simp only [toLEBAux, if_neg h]
        rw [ih g (n / 128) (by omega) (by omega)]

/-- The defining recurrence of minimal unsigned LEB128 encoding. -/
theorem toLEB_eq (n : Nat) :
    toLEB n = if n < 128 then [n] else (n % 128 + 128) :: toLEB (n / 128) := by
  by_cases h : n < 128
  · cases n with
    | zero => simp [toLEB, toLEBAux, h]
    | succ m => simp [toLEB, toLEBAux, h]
  · have h128 : 128 ≤ n := Nat.not_lt.mp h
    obtain ⟨m, rfl⟩ : ∃ m, n = m + 1 := ⟨n - 1, by omega⟩
    simp only [toLEB, toLEBAux, if_neg h]
    rw [toLEBAux_congr m ((m + 1) / 128) ((m + 1) / 128)
      (by have := Nat.div_lt_self (show 0 < m + 1 by omega) (show 1 < 128 by omega); omega)
      (Nat.le_refl _)]

theorem toLEB_ne_nil (n : Nat) : toLEB n ≠ [] := by
  rw [toLEB_eq]
  by_cases h : n < 128 <;> simp [h]

/-- Decoding an unsigned varint laid out at the head of a stream recovers
the encoded value and consumes exactly the encoding. -/
theorem decodeULEB_toLEB (n : Nat) (rest : List Nat) :
    decodeULEB (toLEB n ++ rest) = some (n, (toLEB n).length) := by
  induction n using Nat.strong_induction_on with
  | _ n ih =>
    rw [toLEB_eq]
    by_cases h : n < 128
    · simp [h, decodeULEB]
    · have h128 : 128 ≤ n := Nat.not_lt.mp h
      have hdiv : n / 128 < n := Nat.div_lt_self (by omega) (by omega)
      simp only [if_neg h, List.cons_append, decodeULEB,
        if_neg (show ¬(n % 128 + 128 < 128) by omega)]
      rw [ih (n / 128) hdiv]
      simp only [List.length_cons]
      have : n % 128 + 128 * (n / 128) = n := by
        have := Nat.mod_add_div n 128
        omega
      congr 1
      have hmod : (n % 128 + 128) % 128 = n % 128 := by omega
      rw [hmod, this]

theorem decodeULEB_k_pos : ∀ {l : List Nat} {v k : Nat},
    decodeULEB l = some (v, k) → 1 ≤ k := by
  intro l
  induction l with
  | nil => intro v k h; simp [decodeULEB] at h
  | cons b rest ih =>
    intro v k h
    simp only [decodeULEB] at h
    by_cases hb : b < 128
    · rw [if_pos hb] at h
      simp at h
      omega
    · rw [if_neg hb] at h
      cases hr : decodeULEB rest with
      | none => rw [hr] at h; simp at h
      | some vk =>
        rw [hr] at h
        obtain ⟨v', k'⟩ := vk
        simp at h
        omega

theorem decodeULEB_k_le : ∀ {l : List Nat} {v k : Nat},
    decodeULEB l = some (v, k) → k ≤ l.length := by
  intro l
  induction l with
  | nil => intro v k h; simp [decodeULEB] at h
  | cons b rest ih =>
    intro v k h
    simp only [decodeULEB] at h
    by_cases hb : b < 128
    · rw [if_pos hb] at h
      simp at h
      simp [← h.2]
    · rw [if_neg hb] at h
      cases hr : decodeULEB rest with
      | none => rw [hr] at h; simp at h
      | some vk =>
        rw [hr] at h
        obtain ⟨v', k'⟩ := vk
        simp at h
        have := ih hr
        simp only [List.length_cons]
        omega

theorem decodeSLEB_k_pos : ∀ {l : List Nat} {v : Int} {k : Nat},
    decodeSLEB l = some (v, k) → 1 ≤ k := by
  intro l
  induction l with
  | nil => intro v k h; simp [decodeSLEB] at h
  | cons b rest ih =>
    intro v k h
    simp only [decodeSLEB] at h
    by_cases hb : b < 128
    · rw [if_pos hb] at h
      simp at h
      omega
    · rw [if_neg hb] at h
      cases hr : decodeSLEB rest with
      | none => rw [hr] at h; simp at h
      | some vk =>
        rw [hr] at h
        obtain ⟨v', k'⟩ := vk
        simp at h
        omega

theorem decodeSLEB_k_le : ∀ {l : List Nat} {v : Int} {k : Nat},
    decodeSLEB l = some (v, k) → k ≤ l.length := by
  intro l
  induction l with
  | nil => intro v k h; simp [decodeSLEB] at h
  | cons b rest ih =>
    intro v k h
    simp only [decodeSLEB] at h
    by_cases hb : b < 128
    · rw [if_pos hb] at h
      simp at h
      simp [← h.2]
    · rw [if_neg hb] at h
      cases hr : decodeSLEB rest with
      | none => rw [hr] at h; simp at h
      | some vk =>
        rw [hr] at h
        obtain ⟨v', k'⟩ := vk
        simp at h
        have := ih hr
        simp only [List.length_cons]
        omega

/-- A successful varint decode is stable under extending the stream. -/
theorem decodeSLEB_append : ∀ {l : List Nat} {v : Int} {k : Nat} (r : List Nat),
    decodeSLEB l = some (v, k) → decodeSLEB (l ++ r) = some (v, k) := by
  intro l
  induction l with
  | nil => intro v k r h; simp [decodeSLEB] at h
  | cons b rest ih =>
    intro v k r h
    rw [List.cons_append]
    by_cases hb : b < 128
    · simp only [decodeSLEB, if_pos hb] at h ⊢
      exact h
    · cases hr : decodeSLEB rest with
      | none => simp [decodeSLEB, if_neg hb, hr] at h
      | some vk =>
        obtain ⟨v', k'⟩ := vk
        simp only [decodeSLEB, if_neg hb, hr] at h
        simp only [decodeSLEB, if_neg hb, ih r hr]
        exact h

/-! ### Layout lemmas: reads at a position where known bytes are laid out -/

theorem drop_at (data pre post : List Nat) (pos : Nat)
    (h : data.drop pos = pre ++ post) :
    data.drop (pos + pre.length) = post := by
  rw [← List.drop_drop pre.length pos data, h, List.drop_left]

theorem decodeULEBFrom_layout (data : List Nat) (pos n : Nat) (rest : List Nat)
    (h : data.drop pos = toLEB n ++ rest) :
    decodeULEBFrom data pos = some (n, pos + (toLEB n).length) := by
  unfold decodeULEBFrom
  rw [h, decodeULEB_toLEB]

theorem readStringAt_layout (data : List Nat) (pos : Nat) (s rest : List Nat)
    (hv : validUtf8 s = true)
    (h : data.drop pos = toLEB s.length ++ (s ++ rest)) :
    readStringAt data pos =
      some (s, pos + (toLEB s.length).length + s.length) := by
  unfold readStringAt
  rw [decodeULEBFrom_layout data pos s.length (s ++ rest) h]
  have hdrop : data.drop (pos + (toLEB s.length).length) = s ++ rest :=
    drop_at data (toLEB s.length) (s ++ rest) pos h
  simp only [hdrop, List.take_left, hv, if_pos]

theorem readNeeded_layout (data : List Nat) : ∀ (names : List (List Nat))
    (pos : Nat) (rest : List Nat),
    (∀ s ∈ names, validUtf8 s = true) →
    data.drop pos = encodeNames names ++ rest →
    readNeeded data names.length pos =
      some (names, pos + (encodeNames names).length) := by
  intro names
  induction names with
  | nil => intro pos rest hv h; simp [readNeeded, encodeNames]
  | cons s ss ih =>
    intro pos rest hv h
    have hs : validUtf8 s = true := hv s (by simp)
    have hlay : data.drop pos =
        toLEB s.length ++ (s ++ (encodeNames ss ++ rest)) := by
      rw [h]
      simp [encodeNames, List.append_assoc]
    simp only [List.length_cons, readNeeded,
      readStringAt_layout data pos s (encodeNames ss ++ rest) hs hlay]
    have hdrop2 : data.drop (pos + (toLEB s.length).length + s.length) =
        encodeNames ss ++ rest := by
      have h1 := drop_at data (toLEB s.length) (s ++ (encodeNames ss ++ rest)) pos hlay
      have h2 := drop_at data s (encodeNames ss ++ rest) _ h1
      rw [← h2]
    rw [ih (pos + (toLEB s.length).length + s.length) rest
      (fun t ht => hv t (by simp [ht])) hdrop2]
    simp only [encodeNames, List.length_append]
    congr 2
    omega

/-- Inversion for `readStringAt`: a returned string is the clipped read of
the declared byte count and passed the UTF-8 validity check. -/
theorem readStringAt_inv {data : List Nat} {pos : Nat} {s : List Nat} {p : Nat}
    (h : readStringAt data pos = some (s, p)) :
    validUtf8 s = true ∧ ∃ n q, decodeULEBFrom data pos = some (n, q) ∧
      s = (data.drop q).take n ∧ p = q + s.length := by
  cases hd : decodeULEBFrom data pos with
  | none => simp [readStringAt, hd] at h
  | some np =>
    obtain ⟨n, q⟩ := np
    by_cases hv : validUtf8 ((data.drop q).take n) = true
    · simp only [readStringAt, hd, hv, if_pos, Option.some.injEq, Prod.mk.injEq] at h
      obtain ⟨h1, h2⟩ := h
      subst h1
      exact ⟨hv, n, q, rfl, rfl, h2.symm⟩
    · simp [readStringAt, hd, hv] at h

/-- Strings produced by `readNeeded` passed the UTF-8 validity check. -/
theorem readNeeded_valid (data : List Nat) : ∀ (n pos : Nat) (names : List (List Nat))
    (q : Nat), readNeeded data n pos = some (names, q) →
    ∀ s ∈ names, validUtf8 s = true := by
  intro n
  induction n with
  | zero =>
    intro pos names q h
    simp only [readNeeded, Option.some.injEq, Prod.mk.injEq] at h
    obtain ⟨h1, _⟩ := h
    subst h1
    intro s hs
    simp at hs
  | succ n ih =>
    intro pos names q h
    cases hs : readStringAt data pos with
    | none => simp [readNeeded, hs] at h
    | some sp =>
      obtain ⟨s, p⟩ := sp
      cases hr : readNeeded data n p with
      | none => simp [readNeeded, hs, hr] at h
      | some ssq =>
        obtain ⟨ss, q'⟩ := ssq
        simp only [readNeeded, hs, hr, Option.some.injEq, Prod.mk.injEq] at h
        obtain ⟨h1, _⟩ := h
        subst h1
        intro t ht
        rcases List.mem_cons.mp ht with h1 | h2
        · subst h1
          exact (readStringAt_inv hs).1
        · exact ih p ss q' hr t h2

end Wasm

namespace Wasm

/-! ### Further layout lemmas -/

theorem decodeULEBFrom_bounds {data : List Nat} {pos n q : Nat}
    (h : decodeULEBFrom data pos = some (n, q)) :
    pos < data.length ∧ q ≤ data.length := by
  cases hd : decodeULEB (data.drop pos) with
  | none => simp [decodeULEBFrom, hd] at h
  | some vk =>
    obtain ⟨v, k⟩ := vk
    simp only [decodeULEBFrom, hd, Option.some.injEq, Prod.mk.injEq] at h
    obtain ⟨h1, h2⟩ := h
    have hk := decodeULEB_k_le hd
    have hk1 := decodeULEB_k_pos hd
    rw [List.length_drop] at hk
    have hpos : pos < data.length := by
      by_contra hc
      push_neg at hc
      rw [List.drop_eq_nil_of_le hc] at hd
      simp [decodeULEB] at hd
    exact ⟨hpos, by omega⟩

theorem decodeULEBs_layout (data : List Nat) : ∀ (vals : List Nat)
    (pos : Nat) (rest : List Nat),
    data.drop pos = encodeULEBs vals ++ rest →
    decodeULEBs data vals.length pos =
      some (vals, pos + (encodeULEBs vals).length) := by
  intro vals
  induction vals with
  | nil => intro pos rest h; simp [decodeULEBs, encodeULEBs]
  | cons v vs ih =>
    intro pos rest h
    have hlay : data.drop pos = toLEB v ++ (encodeULEBs vs ++ rest) := by
      rw [h]; simp [encodeULEBs, List.append_assoc]
    simp only [List.length_cons, decodeULEBs,
      decodeULEBFrom_layout data pos v (encodeULEBs vs ++ rest) hlay]
    rw [ih (pos + (toLEB v).length) rest
      (drop_at data (toLEB v) (encodeULEBs vs ++ rest) pos hlay)]
    simp only [encodeULEBs, List.length_append, Option.some.injEq, Prod.mk.injEq]
    refine ⟨by trivial, by omega⟩

/-! ### Claim theorems: metadata writer (C3, C4) -/

/-- C3: after `add_emscripten_metadata(path, config)`, the file consists of
the original 8-byte header, byte 0x00, an unsigned varint equal to the
total length of the length-prefixed name plus payload, the length-prefixed
name "emscripten_metadata", exactly 12 unsigned varints in the order
metadata_major (0), metadata_minor (3), abi_major (0), abi_minor (29), 1,
initial_memory / 65536, 0, global_base, 0, 0, 0, standalone_flag, and then
the original file's bytes from offset 8 onward.  The second group of
conjuncts re-reads the produced bytes: the custom-section marker at offset
8, the decoded name, and the 12 decoded payload varints. -/
theorem c3_metadata_layout (s : Settings) (data : List Nat)
    (h8 : 8 ≤ data.length) :
    add_emscripten_metadata s data =
      data.take 8 ++ [0x00] ++
      toLEB (20 + (metadata_contents s).length) ++
      (0x13 :: str_emscripten_metadata) ++
      (toLEB 0 ++ toLEB 3 ++ toLEB 0 ++ toLEB 29 ++ toLEB 1 ++
       toLEB (s.INITIAL_MEMORY / 65536) ++ toLEB 0 ++ toLEB s.GLOBAL_BASE ++
       toLEB 0 ++ toLEB 0 ++ toLEB 0 ++ toLEB s.STANDALONE_WASM) ++
      data.drop 8 ∧
    (add_emscripten_metadata s data)[8]? = some 0x00 ∧
    readStringAt (add_emscripten_metadata s data)
        (9 + (toLEB (20 + (metadata_contents s).length)).length) =
      some (str_emscripten_metadata,
        9 + (toLEB (20 + (metadata_contents s).length)).length + 20) ∧
    decodeULEBs (add_emscripten_metadata s data) 12
        (9 + (toLEB (20 + (metadata_contents s).length)).length + 20) =
      some ([0, 3, 0, 29, 1, s.INITIAL_MEMORY / 65536, 0, s.GLOBAL_BASE,
             0, 0, 0, s.STANDALONE_WASM],
        9 + (toLEB (20 + (metadata_contents s).length)).length + 20 +
          (metadata_contents s).length) := by
  have htake : (data.take 8).length = 8 := by
    rw [List.length_take]
    omega
  have hname : metadata_name.length = 20 := by decide
  have hout : add_emscripten_metadata s data =
      (data.take 8 ++ [0] ++ toLEB (20 + (metadata_contents s).length)) ++
      (metadata_name ++ (metadata_contents s ++ data.drop 8)) := by
    unfold add_emscripten_metadata
    rw [hname]
    simp [List.append_assoc]
  refine ⟨?_, ?_, ?_, ?_⟩
  · unfold add_emscripten_metadata
    rw [hname]
    rfl
  · have hout0 : add_emscripten_metadata s data =
        data.take 8 ++ ([0] ++ (toLEB (20 + (metadata_contents s).length) ++
          (metadata_name ++ (metadata_contents s ++ data.drop 8)))) := by
      unfold add_emscripten_metadata
      rw [hname]
      simp [List.append_assoc]
    rw [hout0, List.getElem?_append_right (by omega)]
    simp [htake]
  · have hdrop : (add_emscripten_metadata s data).drop
        (9 + (toLEB (20 + (metadata_contents s).length)).length) =
        metadata_name ++ (metadata_contents s ++ data.drop 8) := by
      have hlen : (data.take 8 ++ [0] ++
          toLEB (20 + (metadata_contents s).length)).length =
          9 + (toLEB (20 + (metadata_contents s).length)).length := by
        simp [htake]
        omega
      rw [hout, ← hlen, List.drop_left]
    have hname2 : metadata_name =
        toLEB str_emscripten_metadata.length ++ str_emscripten_metadata := by
      decide
    rw [readStringAt_layout (add_emscripten_metadata s data)
      (9 + (toLEB (20 + (metadata_contents s).length)).length)
      str_emscripten_metadata (metadata_contents s ++ data.drop 8)
      (by decide)
      (by rw [hdrop, hname2, List.append_assoc])]
    have hsl : str_emscripten_metadata.length = 19 := by decide
    simp only [hsl, show (toLEB 19).length = 1 from by decide]
  · have hdrop : (add_emscripten_metadata s data).drop
        (9 + (toLEB (20 + (metadata_contents s).length)).length + 20) =
        metadata_contents s ++ data.drop 8 := by
      have hlen : (data.take 8 ++ [0] ++
          toLEB (20 + (metadata_contents s).length) ++ metadata_name).length =
          9 + (toLEB (20 + (metadata_contents s).length)).length + 20 := by
        simp [htake, hname]
        omega
      have hout2 : add_emscripten_metadata s data =
          (data.take 8 ++ [0] ++ toLEB (20 + (metadata_contents s).length) ++
            metadata_name) ++ (metadata_contents s ++ data.drop 8) := by
        unfold add_emscripten_metadata
        rw [hname]
        simp [List.append_assoc]
      rw [hout2, ← hlen, List.drop_left]
    have hcontents : metadata_contents s =
        encodeULEBs [0, 3, 0, 29, 1, s.INITIAL_MEMORY / 65536, 0,
          s.GLOBAL_BASE, 0, 0, 0, s.STANDALONE_WASM] := by
      unfold metadata_contents EMSCRIPTEN_METADATA_MAJOR
        EMSCRIPTEN_METADATA_MINOR EMSCRIPTEN_ABI_MAJOR EMSCRIPTEN_ABI_MINOR
        WASM_PAGE_SIZE
      simp [encodeULEBs, List.append_assoc]
    have := decodeULEBs_layout (add_emscripten_metadata s data)
      [0, 3, 0, 29, 1, s.INITIAL_MEMORY / 65536, 0, s.GLOBAL_BASE, 0, 0, 0,
        s.STANDALONE_WASM]
      (9 + (toLEB (20 + (metadata_contents s).length)).length + 20)
      (data.drop 8) (by rw [hdrop, hcontents])
    rw [← hcontents] at this
    simpa using this

/-- C4 counterexample: the metadata writer is called with the file path as
its only argument; its configuration comes from ambient global state
(`shared.Settings`), so two runs on the same original file bytes with the
same caller-supplied arguments produce different output bytes when the
ambient `INITIAL_MEMORY` differs, refuting the claim that the
configuration is caller-supplied and the output depends on the file bytes
alone. -/
theorem c4_metadata_ambient_counterexample :
    add_emscripten_metadata ⟨65536, 1024, 0, 0⟩ exHeader ≠
      add_emscripten_metadata ⟨131072, 1024, 0, 0⟩ exHeader := by
  decide

/-- C4 (amended): the metadata writer reads exactly
`{INITIAL_MEMORY, GLOBAL_BASE, STANDALONE_WASM}` from the ambient global
settings; for every pair of runs on the same original file bytes whose
ambient settings agree on those three values, the output bytes are
identical regardless of any other ambient process state. -/
theorem c4_metadata_determinism (s1 s2 : Settings) (data : List Nat)
    (h1 : s1.INITIAL_MEMORY = s2.INITIAL_MEMORY)
    (h2 : s1.GLOBAL_BASE = s2.GLOBAL_BASE)
    (h3 : s1.STANDALONE_WASM = s2.STANDALONE_WASM) :
    add_emscripten_metadata s1 data = add_emscripten_metadata s2 data := by
  unfold add_emscripten_metadata metadata_contents
  rw [h1, h2, h3]

theorem c4_metadata_determinism_witness :
    add_emscripten_metadata ⟨65536, 1024, 1, 5⟩ exHeader =
      add_emscripten_metadata ⟨65536, 1024, 1, 99⟩ exHeader :=
  c4_metadata_determinism ⟨65536, 1024, 1, 5⟩ ⟨65536, 1024, 1, 99⟩ exHeader
    rfl rfl rfl

/-- C5 counterexample: a length-prefixed string read whose stream ends
before the declared byte count does NOT fail: with declared length 5 and
only 3 bytes available, `readString` returns the 3 available bytes decoded,
refuting the claim that truncation is an error. -/
theorem c5_truncation_counterexample :
    readStringAt [5, 0x61, 0x62, 0x63] 0 = some ([0x61, 0x62, 0x63], 4) ∧
    decodeULEBFrom [5, 0x61, 0x62, 0x63] 0 = some (5, 1) ∧
    ([5, 0x61, 0x62, 0x63] : List Nat).length < 1 + 5 := by
  decide

/-- C5 (amended): a length-prefixed string read fails when the bytes
actually read are not valid UTF-8; when the stream ends before the
declared byte count, the read does not fail but returns the decoded prefix
of the bytes actually available (failing only if that prefix is invalid
UTF-8), leaving the cursor at end of stream. -/
theorem c5_read_string_errors :
    (∀ (data : List Nat) (pos n q : Nat),
      decodeULEBFrom data pos = some (n, q) →
      validUtf8 ((data.drop q).take n) = false →
      readStringAt data pos = none) ∧
    (∀ (data : List Nat) (pos n q : Nat),
      decodeULEBFrom data pos = some (n, q) →
      data.length ≤ q + n →
      validUtf8 (data.drop q) = true →
      readStringAt data pos = some (data.drop q, data.length)) := by
  constructor
  · intro data pos n q h1 h2
    simp [readStringAt, h1, h2]
  · intro data pos n q h1 h2 h3
    have hq := (decodeULEBFrom_bounds h1).2
    have htake : (data.drop q).take n = data.drop q :=
      List.take_of_length_le (by rw [List.length_drop]; omega)
    simp only [readStringAt, h1, htake, h3, if_pos]
    rw [List.length_drop]
    congr 2
    omega

theorem c5_read_string_errors_witness :
    readStringAt [1, 0xFF] 0 = none ∧
    readStringAt [5, 0x62, 0x63, 0x64] 0 = some ([0x62, 0x63, 0x64], 4) := by
  constructor
  · exact c5_read_string_errors.1 [1, 0xFF] 0 1 1 (by decide) (by decide)
  · have := c5_read_string_errors.2 [5, 0x62, 0x63, 0x64] 0 5 1
      (by decide) (by decide) (by decide)
    simpa using this

/-- C10: `parse_dylink_section` is not bounded by the declared section
size: on `exC10`, whose dylink section is declared to end at offset 23
(offset 10 + size 13), the parse succeeds and the single needed name it
returns consists of the three file bytes starting at offset 23 — bytes of
the following section's frame — instead of reporting a format error. -/
theorem c10_parse_past_section_end :
    parse_dylink_section exC10 =
      some (16, 4, 8, 4, 23, [(exC10.drop 23).take 3]) ∧
    (exC10.drop 23).take 3 = [1, 2, 1] ∧
    (openModule exC10).isSome = true ∧
    exC10.length = 27 := by
  decide

/-- C8: byte preservation of the rewrite operations: every successful
`update_dylink_section` output ends with the original bytes from the
dylink section's end offset to end-of-file, unchanged and in order; every
`add_emscripten_metadata` output ends with the original bytes from offset
8 onward. -/
theorem c8_byte_preservation :
    (∀ (data : List Nat) (extra : List (List Nat))
      (ms ma ts ta se : Nat) (nd : List (List Nat)) (out : List Nat),
      parse_dylink_section data = some (ms, ma, ts, ta, se, nd) →
      update_dylink_section data extra = some out →
      ∃ pfx, out = pfx ++ data.drop se) ∧
    (∀ (s : Settings) (data : List Nat),
      ∃ pfx, add_emscripten_metadata s data = pfx ++ data.drop 8) := by
  constructor
  · intro data extra ms ma ts ta se nd out hp hu
    simp only [update_dylink_section, hp, Option.some.injEq] at hu
    refine ⟨data.take 8 ++ [0] ++
      toLEB ((0x06 :: str_dylink).length +
        (toLEB ms ++ toLEB ma ++ toLEB ts ++ toLEB 0 ++
          toLEB (nd ++ extra).length ++ encodeNames (nd ++ extra)).length) ++
      (0x06 :: str_dylink) ++
      (toLEB ms ++ toLEB ma ++ toLEB ts ++ toLEB 0 ++
        toLEB (nd ++ extra).length ++ encodeNames (nd ++ extra)), ?_⟩
    rw [← hu]
  · intro s data
    exact ⟨data.take 8 ++ [0] ++
      toLEB (metadata_name.length + (metadata_contents s).length) ++
      metadata_name ++ metadata_contents s, by
        unfold add_emscripten_metadata
        simp [List.append_assoc]⟩

theorem c8_byte_preservation_witness :
    ∃ pfx, update_dylink_section exDylink [[0x62]] =
      some (pfx ++ exDylink.drop 24) := by
  obtain ⟨pfx, hp⟩ := c8_byte_preservation.1 exDylink [[0x62]] 16 4 8 4 24
    [[0x61]]
    [0x00, 0x61, 0x73, 0x6D, 0x01, 0x00, 0x00, 0x00,
     0, 16, 6, 0x64, 0x79, 0x6C, 0x69, 0x6E, 0x6B,
     16, 4, 8, 0, 2, 1, 0x61, 1, 0x62]
    (by decide) (by decide)
  exact ⟨pfx, by rw [show update_dylink_section exDylink [[0x62]] =
    some [0x00, 0x61, 0x73, 0x6D, 0x01, 0x00, 0x00, 0x00,
      0, 16, 6, 0x64, 0x79, 0x6C, 0x69, 0x6E, 0x6B,
      16, 4, 8, 0, 2, 1, 0x61, 1, 0x62] from by decide, hp]⟩

end Wasm

namespace Wasm

/-! ### Section header scan: soundness -/

theorem c3_metadata_layout_witness :
    8 ≤ exHeader.length ∧
    (add_emscripten_metadata ⟨65536, 1024, 0, 0⟩ exHeader)[8]? = some 0x00 :=
  ⟨by decide, (c3_metadata_layout ⟨65536, 1024, 0, 0⟩ exHeader (by decide)).2.1⟩

theorem readByteAt_eq_none {data : List Nat} {pos : Nat} :
    readByteAt data pos = none ↔ data.length ≤ pos := by
  simp [readByteAt, List.getElem?_eq_none_iff]

/-- Once the seek position passes end-of-file, the next loop iteration's
`readByte` fails, whatever the fuel. -/
theorem aux_overshoot (data : List Nat) (fuel pos : Nat) (acc : List Section)
    (map : List (Nat × Section)) (h : data.length < pos) :
    readSectionHeadersAux data fuel pos acc map = none := by
  cases fuel with
  | zero => rfl
  | succ fuel =>
    have hne : pos ≠ data.length := by omega
    have hb : readByteAt data pos = none := readByteAt_eq_none.mpr (by omega)
    simp [readSectionHeadersAux, hne, hb]

theorem lookup_isSome_append {l1 l2 : List (Nat × Section)} {k : Nat} :
    ((l1 ++ l2).lookup k).isSome = ((l1.lookup k).isSome || (l2.lookup k).isSome) := by
  rw [List.lookup_append]
  cases h : l1.lookup k <;> simp

theorem lookup_none_append {l1 l2 : List (Nat × Section)} {k : Nat}
    (h : ((l1 ++ l2).lookup k) = none) :
    l1.lookup k = none ∧ l2.lookup k = none := by
  rw [List.lookup_append] at h
  cases h1 : l1.lookup k with
  | none =>
    rw [h1, Option.none_or] at h
    exact ⟨rfl, h⟩
  | some v =>
    rw [h1] at h
    simp [Option.or] at h

/-- Soundness of the section header scan: a successful scan extends the
accumulators with a tail of sections that exactly tiles the remaining
region, registers exactly the non-custom sections of that tail in the map,
uses only types absent from the incoming map, and registers no type
twice. -/
theorem aux_sound (data : List Nat) : ∀ (fuel : Nat) (pos : Nat)
    (acc : List Section) (map : List (Nat × Section))
    (S : List Section) (M : List (Nat × Section)),
    pos ≤ data.length →
    readSectionHeadersAux data fuel pos acc map = some (S, M) →
    ∃ tail, S = acc ++ tail ∧
      M = map ++ (tail.filter (fun s => decide (s.type ≠ 0))).map
        (fun s => (s.type, s)) ∧
      sectionsTileB data data.length pos tail = true ∧
      (∀ s ∈ tail, s.type ≠ 0 → map.lookup s.type = none) ∧
      ((tail.filter (fun s => decide (s.type ≠ 0))).map Section.type).Nodup := by
  intro fuel
  induction fuel with
  | zero => intro pos acc map S M hle h; simp [readSectionHeadersAux] at h
  | succ fuel ih =>
    intro pos acc map S M hle h
    by_cases hpos : pos = data.length
    · simp only [readSectionHeadersAux, hpos, if_pos, Option.some.injEq,
        Prod.mk.injEq] at h
      obtain ⟨h1, h2⟩ := h
      exact ⟨[], by simp [← h1], by simp [← h2], by simp [sectionsTileB, hpos],
        by simp, by simp⟩
    · cases hb : readByteAt data pos with
      | none => simp [readSectionHeadersAux, hpos, hb] at h
      | some ty =>
        cases hd : decodeULEBFrom data (pos + 1) with
        | none => simp [readSectionHeadersAux, hpos, hb, hd] at h
        | some so =>
          obtain ⟨ssize, offset⟩ := so
          by_cases hty : ty = 0
          · -- custom section: recorded but not indexed
            subst hty
            simp only [readSectionHeadersAux, hpos, hb, hd, ite_false,
              if_false, ne_eq, not_true_eq_false, reduceIte] at h
            have hle2 : offset + ssize ≤ data.length := by
              by_contra hc
              push_neg at hc
              rw [aux_overshoot data fuel (offset + ssize) _ _ hc] at h
              simp at h
            obtain ⟨tail, ht1, ht2, ht3, ht4, ht5⟩ :=
              ih (offset + ssize) (acc ++ [⟨0, ssize, offset⟩]) map S M hle2 h
            refine ⟨⟨0, ssize, offset⟩ :: tail, by simp [ht1], by simp [ht2],
              ?_, ?_, by simpa using ht5⟩
            · simp only [sectionsTileB, Bool.and_eq_true, decide_eq_true_eq]
              exact ⟨⟨⟨hb, hd⟩, by omega⟩, ht3⟩
            · intro s hs hsty
              rcases List.mem_cons.mp hs with h1 | h2
              · subst h1; simp at hsty
              · exact ht4 s h2 hsty
          · -- non-custom section: duplicate check, then indexed
            cases hlk : (map.lookup ty).isSome with
            | true =>
              simp [readSectionHeadersAux, hpos, hb, hd, hty, hlk] at h
            | false =>
              simp only [readSectionHeadersAux, hpos, hb, hd, hty, hlk,
                ite_false, if_false, ne_eq, not_false_eq_true, reduceIte,
                Bool.false_eq_true] at h
              have hle2 : offset + ssize ≤ data.length := by
                by_contra hc
                push_neg at hc
                rw [aux_overshoot data fuel (offset + ssize) _ _ hc] at h
                simp at h
              obtain ⟨tail, ht1, ht2, ht3, ht4, ht5⟩ :=
                ih (offset + ssize) (acc ++ [⟨ty, ssize, offset⟩])
                  (map ++ [(ty, ⟨ty, ssize, offset⟩)]) S M hle2 h
              have hmapnone : map.lookup ty = none :=
                Option.not_isSome_iff_eq_none.mp (by simp [hlk])
              have htynotin : ∀ s ∈ tail, s.type ≠ 0 → s.type ≠ ty := by
                intro s hs hsty
                have := (lookup_none_append (ht4 s hs hsty)).2
                simp only [List.lookup_cons] at this
                intro hcontra
                rw [hcontra] at this
                simp at this
              refine ⟨⟨ty, ssize, offset⟩ :: tail, by simp [ht1],
                by simp [ht2, hty], ?_, ?_, ?_⟩
              · simp only [sectionsTileB, Bool.and_eq_true, decide_eq_true_eq]
                exact ⟨⟨⟨hb, hd⟩, by omega⟩, ht3⟩
              · intro s hs hsty
                rcases List.mem_cons.mp hs with h1 | h2
                · subst h1; exact hmapnone
                · exact (lookup_none_append (ht4 s h2 hsty)).1
              · have hpa : (fun s => decide (s.type ≠ 0))
                    (⟨ty, ssize, offset⟩ : Section) = true := by
                  simp [hty]
                rw [show List.filter (fun s => decide (s.type ≠ 0))
                    ((⟨ty, ssize, offset⟩ : Section) :: tail) =
                    (⟨ty, ssize, offset⟩ : Section) ::
                      List.filter (fun s => decide (s.type ≠ 0)) tail from
                  List.filter_cons_of_pos hpa]
                simp only [List.map_cons, List.nodup_cons]
                refine ⟨?_, ht5⟩
                intro hmem
                obtain ⟨s, hsmem, hstyeq⟩ := List.mem_map.mp hmem
                have hsfil := List.mem_filter.mp hsmem
                have : s.type ≠ 0 := by
                  have := hsfil.2
                  simpa using this
                exact htynotin s hsfil.1 this hstyeq

end Wasm

namespace Wasm

theorem openModule_inv {data : List Nat} {m : Module}
    (h : openModule data = some m) :
    m.data = data ∧ 8 ≤ data.length ∧
    data.take 4 = [0x00, 0x61, 0x73, 0x6D] ∧
    (data.drop 4).take 4 = [0x01, 0x00, 0x00, 0x00] ∧
    readSectionHeadersAux data (data.length + 1) 8 [] [] =
      some (m.sections, m.section_map) := by
  by_cases hc : data.take 4 = [0x00, 0x61, 0x73, 0x6D] ∧
      (data.drop 4).take 4 = [0x01, 0x00, 0x00, 0x00]
  · have h8 : 8 ≤ data.length := by
      have h4 : ((data.drop 4).take 4).length = 4 := by rw [hc.2]; rfl
      rw [List.length_take, List.length_drop] at h4
      omega
    cases hr : readSectionHeaders data with
    | none => simp [openModule, hc, hr] at h
    | some sm =>
      obtain ⟨secs, map⟩ := sm
      simp only [openModule, hc, and_self, if_pos, hr] at h
      obtain rfl : (⟨data, secs, map⟩ : Module) = m := by
        simpa using h
      exact ⟨rfl, h8, hc.1, hc.2, hr⟩
  · simp [openModule, hc] at h

/-- C6: the section header scan repeats until the read position equals the
file's total size exactly; consequently every successfully opened module's
section frames tile the region after the 8-byte header exactly: each frame
header is read at the previous frame's end, each declared payload end is
inside the file, and the last one lands exactly at end-of-file.  Any file
whose frames would overshoot end-of-file or whose scan position would not
land exactly at end-of-file therefore fails to open. -/
theorem c6_section_scan_tiling (data : List Nat) (m : Module)
    (h : openModule data = some m) :
    sectionsTileB data data.length 8 m.sections = true := by
  obtain ⟨-, h8, -, -, hscan⟩ := openModule_inv h
  obtain ⟨tail, ht1, -, ht3, -, -⟩ :=
    aux_sound data (data.length + 1) 8 [] [] _ _ (by omega) hscan
  simp only [List.nil_append] at ht1
  rw [ht1]
  exact ht3

theorem c6_section_scan_tiling_witness :
    sectionsTileB exDylink exDylink.length 8 [⟨0, 14, 10⟩] = true :=
  c6_section_scan_tiling exDylink ⟨exDylink, [⟨0, 14, 10⟩], []⟩ (by decide)

theorem lookup_pairs {l : List Section} (hnd : (l.map Section.type).Nodup)
    {s : Section} (hs : s ∈ l) :
    (l.map (fun t => (t.type, t))).lookup s.type = some s := by
  induction l with
  | nil => cases hs
  | cons a l ih =>
    rw [List.map_cons] at hnd
    obtain ⟨hnotin, hnd2⟩ := List.nodup_cons.mp hnd
    rcases List.mem_cons.mp hs with h1 | h2
    · subst h1
      simp [List.lookup]
    · have hne : s.type ≠ a.type := fun hc =>
        hnotin (hc ▸ List.mem_map_of_mem Section.type h2)
      have hbeq : (s.type == a.type) = false := by simpa using hne
      simp only [List.map_cons, List.lookup, hbeq]
      exact ih hnd2 h2

theorem lookup_pairs_mem : ∀ {l : List Section} {ty : Nat} {sec : Section},
    (l.map (fun t => (t.type, t))).lookup ty = some sec →
    sec ∈ l ∧ sec.type = ty := by
  intro l
  induction l with
  | nil => intro ty sec h; simp [List.lookup] at h
  | cons a l ih =>
    intro ty sec h
    by_cases hty : ty = a.type
    · have hbeq : (ty == a.type) = true := by simpa using hty
      simp only [List.map_cons, List.lookup, hbeq] at h
      obtain rfl : a = sec := by simpa using h
      exact ⟨List.mem_cons_self a l, hty.symm⟩
    · have hbeq : (ty == a.type) = false := by simpa using hty
      simp only [List.map_cons, List.lookup, hbeq] at h
      obtain ⟨h1, h2⟩ := ih h
      exact ⟨List.mem_cons_of_mem a h1, h2⟩

/-- C7: for every successfully opened module, no two non-custom sections
share a type (so a file with a duplicated non-custom type cannot open);
the type-indexed map is exactly the non-custom sections in order, each
type looked up to its unique section record; custom sections (type 0) are
never indexed; and a file with two custom sections opens without error. -/
theorem c7_noncustom_uniqueness :
    (∀ (data : List Nat) (m : Module), openModule data = some m →
      ((m.sections.filter (fun s => decide (s.type ≠ 0))).map Section.type).Nodup ∧
      m.section_map = (m.sections.filter (fun s => decide (s.type ≠ 0))).map
        (fun s => (s.type, s)) ∧
      (∀ s ∈ m.sections, s.type ≠ 0 → m.section_map.lookup s.type = some s) ∧
      (∀ (ty : Nat) (sec : Section), m.section_map.lookup ty = some sec →
        sec ∈ m.sections ∧ sec.type = ty ∧ ty ≠ 0)) ∧
    (openModule exTwoCustoms).isSome = true := by
  constructor
  · intro data m h
    obtain ⟨-, h8, -, -, hscan⟩ := openModule_inv h
    obtain ⟨tail, ht1, ht2, -, -, ht5⟩ :=
      aux_sound data (data.length + 1) 8 [] [] _ _ (by omega) hscan
    simp only [List.nil_append] at ht1 ht2
    subst ht1
    refine ⟨ht5, ht2, ?_, ?_⟩
    · intro s hs hsty
      rw [ht2]
      exact lookup_pairs ht5 (List.mem_filter.mpr ⟨hs, by simpa using hsty⟩)
    · intro ty sec hlk
      rw [ht2] at hlk
      obtain ⟨h1, h2⟩ := lookup_pairs_mem hlk
      have hf := List.mem_filter.mp h1
      have hnc : sec.type ≠ 0 := by simpa using hf.2
      exact ⟨hf.1, h2, h2 ▸ hnc⟩
  · decide

theorem c7_noncustom_uniqueness_witness :
    ([(2, (⟨2, 4, 10⟩ : Section))].lookup
      ((⟨2, 4, 10⟩ : Section)).type = some (⟨2, 4, 10⟩ : Section)) ∧
    (openModule exTwoCustoms).isSome = true :=
  ⟨(c7_noncustom_uniqueness.1 exEventImport
      ⟨exEventImport, [⟨2, 4, 10⟩], [(2, ⟨2, 4, 10⟩)]⟩ (by decide)).2.2.1
      ⟨2, 4, 10⟩ (by decide) (by decide),
    c7_noncustom_uniqueness.2⟩

end Wasm

namespace Wasm

/-! ### Section header scan: invariance under relocation of the suffix -/

theorem drop_length_eq {d1 d2 : List Nat} {p1 p2 : Nat}
    (h : d1.drop p1 = d2.drop p2) : d1.length - p1 = d2.length - p2 := by
  have := congrArg List.length h
  simpa [List.length_drop] using this

theorem drop_shift {d1 d2 : List Nat} {p1 p2 : Nat}
    (h : d1.drop p1 = d2.drop p2) (i : Nat) :
    d1.drop (p1 + i) = d2.drop (p2 + i) := by
  rw [← List.drop_drop i p1 d1, ← List.drop_drop i p2 d2, h]

theorem readByteAt_shift {d1 d2 : List Nat} {p1 p2 : Nat}
    (h : d1.drop p1 = d2.drop p2) :
    readByteAt d1 p1 = readByteAt d2 p2 := by
  have h1 : (d1.drop p1)[0]? = (d2.drop p2)[0]? := by rw [h]
  simpa [readByteAt, List.getElem?_drop] using h1

/-- The section scan behaves identically on two files that agree from
positions `p1` and `p2` on: it fails on both or succeeds on both, and on
success appends the same section tail up to relocation of the offsets by
`p2 - p1`, and registers the same non-custom types. -/
theorem aux_shift (d1 d2 : List Nat) : ∀ (f1 f2 p1 p2 : Nat)
    (acc1 acc2 : List Section) (map1 map2 : List (Nat × Section)),
    p1 ≤ d1.length → p2 ≤ d2.length →
    d1.length + 1 ≤ f1 + p1 → d2.length + 1 ≤ f2 + p2 →
    d1.drop p1 = d2.drop p2 →
    (∀ ty, (map1.lookup ty).isSome = (map2.lookup ty).isSome) →
    (readSectionHeadersAux d1 f1 p1 acc1 map1 = none ∧
     readSectionHeadersAux d2 f2 p2 acc2 map2 = none) ∨
    (∃ tail Mt,
      readSectionHeadersAux d1 f1 p1 acc1 map1 =
        some (acc1 ++ tail, map1 ++ Mt) ∧
      readSectionHeadersAux d2 f2 p2 acc2 map2 =
        some (acc2 ++ tail.map (movSec p1 p2),
          map2 ++ Mt.map (fun pr => (pr.1, movSec p1 p2 pr.2)))) := by
  intro f1
  induction f1 with
  | zero =>
    intro f2 p1 p2 acc1 acc2 map1 map2 hp1 hp2 hf1 hf2 hdrop hmap
    omega
  | succ f1 ih =>
    intro f2 p1 p2 acc1 acc2 map1 map2 hp1 hp2 hf1 hf2 hdrop hmap
    have hlen : d1.length - p1 = d2.length - p2 := drop_length_eq hdrop
    cases f2 with
    | zero => omega
    | succ f2 =>
      by_cases hpos1 : p1 = d1.length
      · have hpos2 : p2 = d2.length := by omega
        right
        refine ⟨[], [], ?_, ?_⟩ <;>
          simp [readSectionHeadersAux, hpos1, hpos2]
      · have hpos2 : p2 ≠ d2.length := by omega
        have hb12 : readByteAt d1 p1 = readByteAt d2 p2 := readByteAt_shift hdrop
        cases hb : readByteAt d1 p1 with
        | none => exact absurd (readByteAt_eq_none.mp hb) (by omega)
        | some ty =>
          have hb2 : readByteAt d2 p2 = some ty := by rw [← hb12]; exact hb
          have hdrop1 : d1.drop (p1 + 1) = d2.drop (p2 + 1) := drop_shift hdrop 1
          cases hu : decodeULEB (d1.drop (p1 + 1)) with
          | none =>
            have hu2 : decodeULEB (d2.drop (p2 + 1)) = none := by
              rw [← hdrop1]; exact hu
            left
            constructor
            · simp [readSectionHeadersAux, hpos1, hb, decodeULEBFrom, hu]
            · simp [readSectionHeadersAux, hpos2, hb2, decodeULEBFrom, hu2]
          | some vk =>
            obtain ⟨ssize, k⟩ := vk
            have hd1 : decodeULEBFrom d1 (p1 + 1) = some (ssize, p1 + 1 + k) := by
              simp [decodeULEBFrom, hu]
            have hd2 : decodeULEBFrom d2 (p2 + 1) = some (ssize, p2 + 1 + k) := by
              rw [hdrop1] at hu
              simp [decodeULEBFrom, hu]
            have hk1 : 1 ≤ k := decodeULEB_k_pos hu
            have hmov : movSec p1 p2 ⟨ty, ssize, p1 + 1 + k⟩ =
                ⟨ty, ssize, p2 + 1 + k⟩ := by
              simp only [movSec]
              congr 1
              omega
            have hmovfun : movSec (p1 + 1 + k + ssize) (p2 + 1 + k + ssize) =
                movSec p1 p2 := by
              funext s
              simp only [movSec]
              congr 1
              omega
            by_cases hover : d1.length < p1 + 1 + k + ssize
            · have hover2 : d2.length < p2 + 1 + k + ssize := by omega
              left
              constructor
              · simp [readSectionHeadersAux, hpos1, hb, hd1,
                  aux_overshoot d1 f1 _ _ _ hover, ite_self]
              · simp [readSectionHeadersAux, hpos2, hb2, hd2,
                  aux_overshoot d2 f2 _ _ _ hover2, ite_self]
            · have hq1le : p1 + 1 + k + ssize ≤ d1.length := by omega
              have hq2le : p2 + 1 + k + ssize ≤ d2.length := by omega
              have hdropq : d1.drop (p1 + 1 + k + ssize) =
                  d2.drop (p2 + 1 + k + ssize) := by
                have := drop_shift hdrop (1 + k + ssize)
                rw [show p1 + (1 + k + ssize) = p1 + 1 + k + ssize by omega,
                  show p2 + (1 + k + ssize) = p2 + 1 + k + ssize by omega] at this
                exact this
              by_cases hty : ty = 0
              · subst hty
                have hrec := ih f2 (p1 + 1 + k + ssize) (p2 + 1 + k + ssize)
                  (acc1 ++ [⟨0, ssize, p1 + 1 + k⟩])
                  (acc2 ++ [⟨0, ssize, p2 + 1 + k⟩]) map1 map2
                  hq1le hq2le (by omega) (by omega) hdropq hmap
                rcases hrec with ⟨hn1, hn2⟩ | ⟨tail, Mt, hs1, hs2⟩
                · left
                  constructor
                  · simp [readSectionHeadersAux, hpos1, hb, hd1, hn1]
                  · simp [readSectionHeadersAux, hpos2, hb2, hd2, hn2]
                · right
                  refine ⟨(⟨0, ssize, p1 + 1 + k⟩ : Section) :: tail, Mt, ?_, ?_⟩
                  · simp only [readSectionHeadersAux, hpos1, hb, hd1,
                      ite_false, ne_eq, not_true_eq_false, reduceIte,
                      if_false, hs1]
                    simp [List.append_assoc]
                  · simp only [readSectionHeadersAux, hpos2, hb2, hd2,
                      ite_false, ne_eq, not_true_eq_false, reduceIte,
                      if_false, hs2, hmovfun]
                    simp [List.append_assoc, hmov]
              · have hlk12 := hmap ty
                cases hlk : (map1.lookup ty).isSome with
                | true =>
                  have hlk2 : (map2.lookup ty).isSome = true := by
                    rw [← hlk12]; exact hlk
                  left
                  constructor
                  · simp [readSectionHeadersAux, hpos1, hb, hd1, hty, hlk]
                  · simp [readSectionHeadersAux, hpos2, hb2, hd2, hty, hlk2]
                | false =>
                  have hlk2 : (map2.lookup ty).isSome = false := by
                    rw [← hlk12]; exact hlk
                  have hmapx : ∀ ty',
                      (((map1 ++ [(ty, (⟨ty, ssize, p1 + 1 + k⟩ : Section))]).lookup ty').isSome) =
                      (((map2 ++ [(ty, (⟨ty, ssize, p2 + 1 + k⟩ : Section))]).lookup ty').isSome) := by
                    intro ty'
                    rw [lookup_isSome_append, lookup_isSome_append, hmap ty']
                    congr 1
                    cases hbe : ty' == ty <;> simp [List.lookup, hbe]
                  have hrec := ih f2 (p1 + 1 + k + ssize) (p2 + 1 + k + ssize)
                    (acc1 ++ [⟨ty, ssize, p1 + 1 + k⟩])
                    (acc2 ++ [⟨ty, ssize, p2 + 1 + k⟩])
                    (map1 ++ [(ty, ⟨ty, ssize, p1 + 1 + k⟩)])
                    (map2 ++ [(ty, ⟨ty, ssize, p2 + 1 + k⟩)])
                    hq1le hq2le (by omega) (by omega) hdropq hmapx
                  rcases hrec with ⟨hn1, hn2⟩ | ⟨tail, Mt, hs1, hs2⟩
                  · left
                    constructor
                    · simp [readSectionHeadersAux, hpos1, hb, hd1, hty, hlk, hn1]
                    · simp [readSectionHeadersAux, hpos2, hb2, hd2, hty, hlk2, hn2]
                  · right
                    refine ⟨(⟨ty, ssize, p1 + 1 + k⟩ : Section) :: tail,
                      (ty, (⟨ty, ssize, p1 + 1 + k⟩ : Section)) :: Mt, ?_, ?_⟩
                    · simp only [readSectionHeadersAux, hpos1, hb, hd1, hty,
                        hlk, Bool.false_eq_true, reduceIte, ne_eq, ite_false,
                        if_false, hs1]
                      simp [List.append_assoc]
                    · simp only [readSectionHeadersAux, hpos2, hb2, hd2, hty,
                        hlk2, Bool.false_eq_true, reduceIte, ne_eq, ite_false,
                        if_false, hs2, hmovfun]
                      simp [List.append_assoc, hmov]

end Wasm

namespace Wasm

/-- Inversion of one iteration of the section scan loop. -/
theorem aux_step_some {data : List Nat} {fuel pos : Nat} {acc : List Section}
    {map : List (Nat × Section)} {S : List Section} {M : List (Nat × Section)}
    (h : readSectionHeadersAux data (fuel + 1) pos acc map = some (S, M))
    (hpos : pos ≠ data.length) :
    ∃ ty ssize offset,
      readByteAt data pos = some ty ∧
      decodeULEBFrom data (pos + 1) = some (ssize, offset) ∧
      ((ty = 0 ∧ readSectionHeadersAux data fuel (offset + ssize)
          (acc ++ [⟨ty, ssize, offset⟩]) map = some (S, M)) ∨
       (ty ≠ 0 ∧ (map.lookup ty).isSome = false ∧
        readSectionHeadersAux data fuel (offset + ssize)
          (acc ++ [⟨ty, ssize, offset⟩])
          (map ++ [(ty, ⟨ty, ssize, offset⟩)]) = some (S, M))) := by
  cases hb : readByteAt data pos with
  | none => simp [readSectionHeadersAux, hpos, hb] at h
  | some ty =>
    cases hd : decodeULEBFrom data (pos + 1) with
    | none => simp [readSectionHeadersAux, hpos, hb, hd] at h
    | some so =>
      obtain ⟨ssize, offset⟩ := so
      refine ⟨ty, ssize, offset, rfl, rfl, ?_⟩
      by_cases hty : ty = 0
      · subst hty
        left
        refine ⟨rfl, ?_⟩
        simpa [readSectionHeadersAux, hpos, hb, hd] using h
      · right
        cases hlk : (map.lookup ty).isSome with
        | true => simp [readSectionHeadersAux, hpos, hb, hd, hty, hlk] at h
        | false =>
          refine ⟨hty, rfl, ?_⟩
          simpa [readSectionHeadersAux, hpos, hb, hd, hty, hlk] using h

/-- Inversion of `parse_dylink_section`. -/
theorem parse_inv {data : List Nat} {ms ma ts ta se : Nat}
    {nd : List (List Nat)}
    (h : parse_dylink_section data = some (ms, ma, ts, ta, se, nd)) :
    ∃ m ds p1 p2 p3 p4 p5 p6 cnt qend,
      openModule data = some m ∧ m.sections.head? = some ds ∧
      ds.type = 0 ∧ se = ds.offset + ds.size ∧
      readStringAt data ds.offset = some (str_dylink, p1) ∧
      decodeULEBFrom data p1 = some (ms, p2) ∧
      decodeULEBFrom data p2 = some (ma, p3) ∧
      decodeULEBFrom data p3 = some (ts, p4) ∧
      decodeULEBFrom data p4 = some (ta, p5) ∧
      decodeULEBFrom data p5 = some (cnt, p6) ∧
      readNeeded data cnt p6 = some (nd, qend) := by
  cases hm : openModule data with
  | none => simp [parse_dylink_section, hm] at h
  | some m =>
    cases hds : m.sections.head? with
    | none => simp [parse_dylink_section, hm, hds] at h
    | some ds =>
      by_cases hty : ds.type = 0
      · cases hrs : readStringAt data ds.offset with
        | none => simp [parse_dylink_section, hm, hds, hty, hrs] at h
        | some sp =>
          obtain ⟨nm, p1⟩ := sp
          by_cases hnm : nm = str_dylink
          · subst hnm
            cases h1 : decodeULEBFrom data p1 with
            | none => simp [parse_dylink_section, hm, hds, hty, hrs, h1] at h
            | some v1 =>
              obtain ⟨xms, p2⟩ := v1
              cases h2 : decodeULEBFrom data p2 with
              | none =>
                simp [parse_dylink_section, hm, hds, hty, hrs, h1, h2] at h
              | some v2 =>
                obtain ⟨xma, p3⟩ := v2
                cases h3 : decodeULEBFrom data p3 with
                | none =>
                  simp [parse_dylink_section, hm, hds, hty, hrs, h1, h2, h3] at h
                | some v3 =>
                  obtain ⟨xts, p4⟩ := v3
                  cases h4 : decodeULEBFrom data p4 with
                  | none =>
                    simp [parse_dylink_section, hm, hds, hty, hrs, h1, h2, h3,
                      h4] at h
                  | some v4 =>
                    obtain ⟨xta, p5⟩ := v4
                    cases h5 : decodeULEBFrom data p5 with
                    | none =>
                      simp [parse_dylink_section, hm, hds, hty, hrs, h1, h2,
                        h3, h4, h5] at h
                    | some v5 =>
                      obtain ⟨cnt, p6⟩ := v5
                      cases h6 : readNeeded data cnt p6 with
                      | none =>
                        simp [parse_dylink_section, hm, hds, hty, hrs, h1, h2,
                          h3, h4, h5, h6] at h
                      | some v6 =>
                        obtain ⟨xnd, qend⟩ := v6
                        simp only [parse_dylink_section, hm, hds, hty, hrs,
                          h1, h2, h3, h4, h5, h6, if_pos, ite_true,
                          Option.some.injEq, Prod.mk.injEq] at h
                        obtain ⟨e1, e2, e3, e4, e5, e6⟩ := h
                        subst e1; subst e2; subst e3; subst e4; subst e6
                        exact ⟨m, ds, p1, p2, p3, p4, p5, p6, cnt, qend, rfl,
                          hds, hty, e5.symm, hrs, h1, h2, h3, h4, h5, h6⟩
          · simp [parse_dylink_section, hm, hds, hty, hrs, hnm] at h
      · simp [parse_dylink_section, hm, hds, hty] at h

end Wasm

namespace Wasm

/-- Opening a file spliced as: original 8-byte header, a fresh custom
section of payload `body` (its declared size varint equal to the actual
body length), then the original bytes from `se` onward.  If the original
scan resumed at `se` succeeds, the spliced file opens, its first section is
the fresh custom section, and the resumed sections follow with offsets
relocated from base `se` to base `T`. -/
theorem openModule_splice (data body out : List Nat) (se T f1 : Nat)
    (acc1 S1 : List Section) (M1 : List (Nat × Section))
    (h8 : 8 ≤ data.length)
    (hmagic : data.take 4 = [0x00, 0x61, 0x73, 0x6D])
    (hver : (data.drop 4).take 4 = [0x01, 0x00, 0x00, 0x00])
    (hT : T = 9 + (toLEB body.length).length + body.length)
    (hout : out = data.take 8 ++ [0] ++ toLEB body.length ++ body ++
      data.drop se)
    (hse : se ≤ data.length)
    (hf1 : data.length + 1 ≤ f1 + se)
    (hcont : readSectionHeadersAux data f1 se acc1 [] = some (S1, M1)) :
    ∃ tail, S1 = acc1 ++ tail ∧
      openModule out = some ⟨out,
        (⟨0, body.length, 9 + (toLEB body.length).length⟩ : Section) ::
          tail.map (movSec se T),
        M1.map (fun pr => (pr.1, movSec se T pr.2))⟩ := by
  have htake8len : (data.take 8).length = 8 := by
    rw [List.length_take]
    omega
  have hLS1 : 1 ≤ (toLEB body.length).length :=
    List.length_pos.mpr (toLEB_ne_nil body.length)
  have g1 : out = (data.take 8) ++
      ([0] ++ (toLEB body.length ++ (body ++ data.drop se))) := by
    rw [hout]
    simp [List.append_assoc]
  have g2 : out = (data.take 8 ++ [0]) ++
      (toLEB body.length ++ (body ++ data.drop se)) := by
    rw [hout]
    simp [List.append_assoc]
  have g3 : out = (data.take 8 ++ [0] ++ toLEB body.length ++ body) ++
      data.drop se := by
    rw [hout]
  have hplen : (data.take 8 ++ [0] ++ toLEB body.length ++ body).length = T := by
    simp only [List.length_append, htake8len, List.length_cons,
      List.length_nil]
    omega
  have hb0 : readByteAt out 8 = some 0 := by
    unfold readByteAt
    rw [g1, List.getElem?_append_right htake8len.le, htake8len]
    simp
  have hdrop9 : out.drop 9 = toLEB body.length ++ (body ++ data.drop se) := by
    have h9 : (data.take 8 ++ [0]).length = 9 := by simp [htake8len]
    rw [g2, ← h9, List.drop_left]
  have hd0 : decodeULEBFrom out 9 =
      some (body.length, 9 + (toLEB body.length).length) :=
    decodeULEBFrom_layout out 9 body.length (body ++ data.drop se) hdrop9
  have hdropT : out.drop T = data.drop se := by
    rw [g3, ← hplen, List.drop_left]
  have hlenout : out.length = T + (data.length - se) := by
    rw [g3, List.length_append, hplen, List.length_drop]
  have hTge : 10 ≤ T := by omega
  have h8ne : (8 : Nat) ≠ out.length := by omega
  have houtake4 : out.take 4 = [0x00, 0x61, 0x73, 0x6D] := by
    rw [g1, List.take_append_of_le_length (by omega), List.take_take]
    simpa using hmagic
  have houtver : (out.drop 4).take 4 = [0x01, 0x00, 0x00, 0x00] := by
    rw [g1, List.drop_append_of_le_length (by omega),
      List.take_append_of_le_length (by rw [List.length_drop, htake8len]),
      List.drop_take]
    have h44 : (data.drop 4).take (8 - 4) = (data.drop 4).take 4 := by norm_num
    rw [h44, hver]
    decide
  have hshift := aux_shift data out f1 out.length se T acc1
    [⟨0, body.length, 9 + (toLEB body.length).length⟩] [] [] hse
    (by omega) hf1 (by omega) hdropT.symm (fun ty => rfl)
  rcases hshift with ⟨hn1, hn2⟩ | ⟨tail, Mt, hs1, hs2⟩
  · rw [hcont] at hn1
    cases hn1
  · rw [hcont] at hs1
    simp only [List.nil_append, Option.some.injEq, Prod.mk.injEq] at hs1
    obtain ⟨e1, e2⟩ := hs1
    refine ⟨tail, e1, ?_⟩
    have hstep : readSectionHeadersAux out (out.length + 1) 8 [] [] =
        readSectionHeadersAux out out.length
          (9 + (toLEB body.length).length + body.length)
          [⟨0, body.length, 9 + (toLEB body.length).length⟩] [] := by
      simp [readSectionHeadersAux, h8ne, hb0, hd0]
    rw [← hT] at hstep
    rw [e2]
    unfold openModule readSectionHeaders
    rw [if_pos (⟨houtake4, houtver⟩ :
      out.take 4 = [0x00, 0x61, 0x73, 0x6D] ∧
      (out.drop 4).take 4 = [0x01, 0x00, 0x00, 0x00])]
    rw [hstep, hs2]
    simp

end Wasm

namespace Wasm

theorem decodeULEBFrom_lb {data : List Nat} {pos v q : Nat}
    (h : decodeULEBFrom data pos = some (v, q)) : pos + 1 ≤ q := by
  cases hd : decodeULEB (data.drop pos) with
  | none => simp [decodeULEBFrom, hd] at h
  | some vk =>
    obtain ⟨v', k⟩ := vk
    have := decodeULEB_k_pos hd
    simp only [decodeULEBFrom, hd, Option.some.injEq, Prod.mk.injEq] at h
    omega

/-- The rewritten file produced by `update_dylink_section` and the module
obtained by re-opening it: the new custom section first (its declared size
the actual length of the length-prefixed name plus payload), then the
original sections after the dylink section, offsets relocated from base
`se` to the end of the new section's frame. -/
theorem update_reopen {data : List Nat} {extra : List (List Nat)}
    {ms ma ts ta se : Nat} {nd : List (List Nat)} {out : List Nat} {m : Module}
    (hm : openModule data = some m)
    (hp : parse_dylink_section data = some (ms, ma, ts, ta, se, nd))
    (hu : update_dylink_section data extra = some out) :
    out = data.take 8 ++ [0] ++
      toLEB ((6 :: str_dylink) ++ (toLEB ms ++ toLEB ma ++ toLEB ts ++
        toLEB 0 ++ toLEB (nd ++ extra).length ++
        encodeNames (nd ++ extra))).length ++
      ((6 :: str_dylink) ++ (toLEB ms ++ toLEB ma ++ toLEB ts ++ toLEB 0 ++
        toLEB (nd ++ extra).length ++ encodeNames (nd ++ extra))) ++
      data.drop se ∧
    openModule out = some ⟨out,
      (⟨0, ((6 :: str_dylink) ++ (toLEB ms ++ toLEB ma ++ toLEB ts ++
          toLEB 0 ++ toLEB (nd ++ extra).length ++
          encodeNames (nd ++ extra))).length,
        9 + (toLEB ((6 :: str_dylink) ++ (toLEB ms ++ toLEB ma ++ toLEB ts ++
          toLEB 0 ++ toLEB (nd ++ extra).length ++
          encodeNames (nd ++ extra))).length).length⟩ : Section) ::
        m.sections.tail.map (movSec se
          (9 + (toLEB ((6 :: str_dylink) ++ (toLEB ms ++ toLEB ma ++
            toLEB ts ++ toLEB 0 ++ toLEB (nd ++ extra).length ++
            encodeNames (nd ++ extra))).length).length +
          ((6 :: str_dylink) ++ (toLEB ms ++ toLEB ma ++ toLEB ts ++
            toLEB 0 ++ toLEB (nd ++ extra).length ++
            encodeNames (nd ++ extra))).length)),
      m.section_map.map (fun pr => (pr.1, movSec se
        (9 + (toLEB ((6 :: str_dylink) ++ (toLEB ms ++ toLEB ma ++
          toLEB ts ++ toLEB 0 ++ toLEB (nd ++ extra).length ++
          encodeNames (nd ++ extra))).length).length +
        ((6 :: str_dylink) ++ (toLEB ms ++ toLEB ma ++ toLEB ts ++
          toLEB 0 ++ toLEB (nd ++ extra).length ++
          encodeNames (nd ++ extra))).length) pr.2))⟩ := by
  obtain ⟨-, h8, hmagic, hver, hscan⟩ := openModule_inv hm
  obtain ⟨m', ds, p1, p2, p3, p4, p5, p6, cnt, qend, hm', hds, hdsty, hseq,
    hrs, h1, h2, h3, h4, h5, h6⟩ := parse_inv hp
  rw [hm] at hm'
  obtain rfl : m = m' := by simpa using hm'
  have h8ne : (8 : Nat) ≠ data.length := by
    intro hcontra
    have hstep : readSectionHeadersAux data (data.length + 1) 8 [] [] =
        some ([], []) := by
      cases hf : data.length + 1 with
      | zero => omega
      | succ f =>
        simp [readSectionHeadersAux, hcontra]
    rw [hstep] at hscan
    simp only [Option.some.injEq, Prod.mk.injEq] at hscan
    rw [← hscan.1] at hds
    simp at hds
  obtain ⟨ty0, ssize0, offset0, hb0, hd0, hbranch⟩ := aux_step_some hscan h8ne
  -- identify the first scanned frame with the parsed dylink section
  have hid : ∀ (mp : List (Nat × Section)),
      readSectionHeadersAux data data.length (offset0 + ssize0)
        ([] ++ [⟨ty0, ssize0, offset0⟩]) mp = some (m.sections, m.section_map) →
      ds = ⟨ty0, ssize0, offset0⟩ ∧ offset0 + ssize0 ≤ data.length := by
    intro mp hcont
    have hle : offset0 + ssize0 ≤ data.length := by
      by_contra hc
      push_neg at hc
      rw [aux_overshoot data data.length _ _ _ hc] at hcont
      cases hcont
    obtain ⟨tail0, ht0, -, -, -, -⟩ :=
      aux_sound data data.length (offset0 + ssize0) _ _ _ _ hle hcont
    rw [ht0] at hds
    simp only [List.nil_append, List.singleton_append, List.head?_cons,
      Option.some.injEq] at hds
    exact ⟨hds.symm, hle⟩
  rcases hbranch with ⟨hty0, hcont⟩ | ⟨hty0, hlk0, hcont⟩
  case inr.intro.intro =>
    obtain ⟨hdseq, -⟩ := hid _ hcont
    exfalso
    rw [hdseq] at hdsty
    exact hty0 hdsty
  case inl.intro =>
    subst hty0
    obtain ⟨hdseq, hle⟩ := hid [] hcont
    have hse1 : 1 ≤ se := by
      have hlb := decodeULEBFrom_lb hd0
      rw [hseq, hdseq]
      show 1 ≤ offset0 + ssize0
      omega
  -- rewrite hu into the explicit output bytes
    simp only [update_dylink_section, hp, Option.some.injEq] at hu
    have hout : out = data.take 8 ++ [0] ++
        toLEB ((6 :: str_dylink) ++ (toLEB ms ++ toLEB ma ++ toLEB ts ++
          toLEB 0 ++ toLEB (nd ++ extra).length ++
          encodeNames (nd ++ extra))).length ++
        ((6 :: str_dylink) ++ (toLEB ms ++ toLEB ma ++ toLEB ts ++ toLEB 0 ++
          toLEB (nd ++ extra).length ++ encodeNames (nd ++ extra))) ++
        data.drop se := by
      rw [← hu]
      simp only [List.append_assoc, List.length_append, List.length_cons]
    have hcont2 : readSectionHeadersAux data data.length se [ds] [] =
        some (m.sections, m.section_map) := by
      rw [hseq, hdseq]
      simpa using hcont
    obtain ⟨tail, htail, hopen⟩ := openModule_splice data
      ((6 :: str_dylink) ++ (toLEB ms ++ toLEB ma ++ toLEB ts ++ toLEB 0 ++
        toLEB (nd ++ extra).length ++ encodeNames (nd ++ extra)))
      out se
      (9 + (toLEB ((6 :: str_dylink) ++ (toLEB ms ++ toLEB ma ++ toLEB ts ++
        toLEB 0 ++ toLEB (nd ++ extra).length ++
        encodeNames (nd ++ extra))).length).length +
       ((6 :: str_dylink) ++ (toLEB ms ++ toLEB ma ++ toLEB ts ++ toLEB 0 ++
        toLEB (nd ++ extra).length ++ encodeNames (nd ++ extra))).length)
      data.length [ds] m.sections m.section_map h8 hmagic hver rfl hout
      (by rw [hseq, hdseq]; exact hle) (by omega) hcont2
    have htail2 : tail = m.sections.tail := by
      rw [htail]
      rfl
    refine ⟨hout, ?_⟩
    rw [hopen, htail2]

end Wasm

namespace Wasm

/-- C9: rewrites preserve module well-formedness.  For every file that
opens successfully as a Module, the file produced by
`add_emscripten_metadata` also opens successfully, with the new custom
section first — its declared size varint decoding to the actual length of
its length-prefixed name plus payload — and all original sections
following with offsets shifted by the inserted frame's size; likewise, for
every file whose first section is a custom "dylink" section,
`update_dylink_section` produces a file that opens successfully, with the
new dylink section first and the original sections after the old dylink
section following, offsets shifted by the size difference (relocated from
the old section end `se` to the new section frame's end). -/
theorem c9_rewrites_reopen :
    (∀ (s : Settings) (data : List Nat) (m : Module),
      openModule data = some m →
      ∃ m2, openModule (add_emscripten_metadata s data) = some m2 ∧
        m2.sections =
          (⟨0, (metadata_name ++ metadata_contents s).length,
            9 + (toLEB (metadata_name ++ metadata_contents s).length).length⟩ :
              Section) ::
          m.sections.map (movSec 8
            (9 + (toLEB (metadata_name ++ metadata_contents s).length).length +
              (metadata_name ++ metadata_contents s).length))) ∧
    (∀ (data : List Nat) (extra : List (List Nat)) (ms ma ts ta se : Nat)
      (nd : List (List Nat)) (out : List Nat) (m : Module),
      openModule data = some m →
      parse_dylink_section data = some (ms, ma, ts, ta, se, nd) →
      update_dylink_section data extra = some out →
      ∃ m2, openModule out = some m2 ∧
        m2.sections =
          (⟨0, ((6 :: str_dylink) ++ (toLEB ms ++ toLEB ma ++ toLEB ts ++
              toLEB 0 ++ toLEB (nd ++ extra).length ++
              encodeNames (nd ++ extra))).length,
            9 + (toLEB ((6 :: str_dylink) ++ (toLEB ms ++ toLEB ma ++
              toLEB ts ++ toLEB 0 ++ toLEB (nd ++ extra).length ++
              encodeNames (nd ++ extra))).length).length⟩ : Section) ::
          m.sections.tail.map (movSec se
            (9 + (toLEB ((6 :: str_dylink) ++ (toLEB ms ++ toLEB ma ++
              toLEB ts ++ toLEB 0 ++ toLEB (nd ++ extra).length ++
              encodeNames (nd ++ extra))).length).length +
            ((6 :: str_dylink) ++ (toLEB ms ++ toLEB ma ++ toLEB ts ++
              toLEB 0 ++ toLEB (nd ++ extra).length ++
              encodeNames (nd ++ extra))).length))) := by
  constructor
  · intro s data m h
    obtain ⟨-, h8, hmagic, hver, hscan⟩ := openModule_inv h
    have hout : add_emscripten_metadata s data =
        data.take 8 ++ [0] ++
        toLEB (metadata_name ++ metadata_contents s).length ++
        (metadata_name ++ metadata_contents s) ++ data.drop 8 := by
      unfold add_emscripten_metadata
      simp only [List.append_assoc, List.length_append]
    obtain ⟨tail, htail, hopen⟩ := openModule_splice data
      (metadata_name ++ metadata_contents s) (add_emscripten_metadata s data)
      8
      (9 + (toLEB (metadata_name ++ metadata_contents s).length).length +
        (metadata_name ++ metadata_contents s).length)
      (data.length + 1) [] m.sections m.section_map h8 hmagic hver rfl hout
      h8 (by omega) hscan
    simp only [List.nil_append] at htail
    refine ⟨_, hopen, ?_⟩
    rw [← htail]
  · intro data extra ms ma ts ta se nd out m hm hp hu
    obtain ⟨-, hopen⟩ := update_reopen hm hp hu
    exact ⟨_, hopen, rfl⟩

theorem c9_rewrites_reopen_witness :
    (∃ m2, openModule
      (add_emscripten_metadata ⟨65536, 1024, 0, 0⟩ exDylink) = some m2) ∧
    (∃ m2, openModule
      [0x00, 0x61, 0x73, 0x6D, 0x01, 0x00, 0x00, 0x00,
       0, 16, 6, 0x64, 0x79, 0x6C, 0x69, 0x6E, 0x6B,
       16, 4, 8, 0, 2, 1, 0x61, 1, 0x62] = some m2) := by
  constructor
  · obtain ⟨m2, h1, -⟩ := c9_rewrites_reopen.1 ⟨65536, 1024, 0, 0⟩ exDylink
      ⟨exDylink, [⟨0, 14, 10⟩], []⟩ (by decide)
    exact ⟨m2, h1⟩
  · obtain ⟨m2, h1, -⟩ := c9_rewrites_reopen.2 exDylink [[0x62]] 16 4 8 4 24
      [[0x61]]
      [0x00, 0x61, 0x73, 0x6D, 0x01, 0x00, 0x00, 0x00,
       0, 16, 6, 0x64, 0x79, 0x6C, 0x69, 0x6E, 0x6B,
       16, 4, 8, 0, 2, 1, 0x61, 1, 0x62]
      ⟨exDylink, [⟨0, 14, 10⟩], []⟩ (by decide) (by decide) (by decide)
    exact ⟨m2, h1⟩

end Wasm

namespace Wasm

/-- Parsing a module whose first section is a custom section laid out as a
dylink section: length-prefixed name "dylink", four unsigned varints, a
needed count and the length-prefixed needed names. -/
theorem parse_layout (out : List Nat) (m2 : Module) (off ssize : Nat)
    (ms ma ts tav : Nat) (names : List (List Nat)) (rest : List Nat)
    (hopen : openModule out = some m2)
    (hhead : m2.sections.head? = some ⟨0, ssize, off⟩)
    (hlay : out.drop off = 6 :: (str_dylink ++ (toLEB ms ++ (toLEB ma ++
      (toLEB ts ++ (toLEB tav ++ (toLEB names.length ++
      (encodeNames names ++ rest))))))))
    (hnames : ∀ s ∈ names, validUtf8 s = true) :
    parse_dylink_section out = some (ms, ma, ts, tav, off + ssize, names) := by
  have hl2 : out.drop off = toLEB str_dylink.length ++ (str_dylink ++
      (toLEB ms ++ (toLEB ma ++ (toLEB ts ++ (toLEB tav ++
      (toLEB names.length ++ (encodeNames names ++ rest))))))) := by
    rw [hlay]
    rfl
  have hname := readStringAt_layout out off str_dylink _ (by decide) hl2
  have hd1 : out.drop (off + (toLEB str_dylink.length).length +
      str_dylink.length) = toLEB ms ++ (toLEB ma ++ (toLEB ts ++ (toLEB tav ++
      (toLEB names.length ++ (encodeNames names ++ rest))))) := by
    have s1 := drop_at out (toLEB str_dylink.length) _ off hl2
    have s2 := drop_at out str_dylink _ _ s1
    exact s2
  have hm1 := decodeULEBFrom_layout out _ ms _ hd1
  have hd2 := drop_at out (toLEB ms) _ _ hd1
  have hm2 := decodeULEBFrom_layout out _ ma _ hd2
  have hd3 := drop_at out (toLEB ma) _ _ hd2
  have hm3 := decodeULEBFrom_layout out _ ts _ hd3
  have hd4 := drop_at out (toLEB ts) _ _ hd3
  have hm4 := decodeULEBFrom_layout out _ tav _ hd4
  have hd5 := drop_at out (toLEB tav) _ _ hd4
  have hm5 := decodeULEBFrom_layout out _ names.length _ hd5
  have hd6 := drop_at out (toLEB names.length) _ _ hd5
  have hneed := readNeeded_layout out names _ rest hnames hd6
  simp only [parse_dylink_section, hopen, hhead, if_pos, ite_true, hname,
    hm1, hm2, hm3, hm4, hm5, hneed]

end Wasm

namespace Wasm

/-- C1: dylink round trip.  For every module whose first section is a
custom "dylink" section (i.e. `parse_dylink_section` succeeds), calling
`update_dylink_section(path, extra)` and then `parse_dylink_section(path)`
succeeds and yields the original `mem_size`, `mem_align` and `table_size`,
a `table_align` of 0 regardless of the original value, and a needed list
equal to the original needed list followed by `extra` in order.  The extra
names are Python strings, i.e. valid UTF-8 byte sequences. -/
theorem c1_dylink_round_trip (data : List Nat) (extra : List (List Nat))
    (ms ma ts ta se : Nat) (nd : List (List Nat))
    (hp : parse_dylink_section data = some (ms, ma, ts, ta, se, nd))
    (hextra : ∀ s ∈ extra, validUtf8 s = true) :
    ∃ out se2, update_dylink_section data extra = some out ∧
      parse_dylink_section out = some (ms, ma, ts, 0, se2, nd ++ extra) := by
  obtain ⟨m, ds, xp1, xp2, xp3, xp4, xp5, xp6, cnt, qend, hm, hds, hdsty,
    hseq, hrs, hh1, hh2, hh3, hh4, hh5, hh6⟩ := parse_inv hp
  have hname_valid : ∀ s ∈ nd ++ extra, validUtf8 s = true := by
    intro s hs
    rcases List.mem_append.mp hs with h | h
    · exact readNeeded_valid data cnt xp6 nd qend hh6 s h
    · exact hextra s h
  obtain ⟨out, hu⟩ : ∃ out, update_dylink_section data extra = some out := by
    simp only [update_dylink_section, hp]
    exact ⟨_, rfl⟩
  obtain ⟨hout, hopen⟩ := update_reopen hm hp hu
  obtain ⟨-, h8, -, -, -⟩ := openModule_inv hm
  have htake8len : (data.take 8).length = 8 := by
    rw [List.length_take]
    omega
  have hplen : (data.take 8 ++ [0] ++ toLEB ((6 :: str_dylink) ++ (toLEB ms ++ toLEB ma ++ toLEB ts ++ toLEB 0 ++ toLEB (nd ++ extra).length ++ encodeNames (nd ++ extra))).length).length =
      9 + (toLEB ((6 :: str_dylink) ++ (toLEB ms ++ toLEB ma ++ toLEB ts ++ toLEB 0 ++ toLEB (nd ++ extra).length ++ encodeNames (nd ++ extra))).length).length := by
    simp only [List.length_append, htake8len, List.length_cons,
      List.length_nil]
  have hgroup : out = (data.take 8 ++ [0] ++ toLEB ((6 :: str_dylink) ++ (toLEB ms ++ toLEB ma ++ toLEB ts ++ toLEB 0 ++ toLEB (nd ++ extra).length ++ encodeNames (nd ++ extra))).length) ++
      (((6 :: str_dylink) ++ (toLEB ms ++ toLEB ma ++ toLEB ts ++ toLEB 0 ++ toLEB (nd ++ extra).length ++ encodeNames (nd ++ extra))) ++ data.drop se) := by
    rw [hout]
    simp [List.append_assoc]
  have hdropB : out.drop (9 + (toLEB ((6 :: str_dylink) ++ (toLEB ms ++ toLEB ma ++ toLEB ts ++ toLEB 0 ++ toLEB (nd ++ extra).length ++ encodeNames (nd ++ extra))).length).length) =
      ((6 :: str_dylink) ++ (toLEB ms ++ toLEB ma ++ toLEB ts ++ toLEB 0 ++ toLEB (nd ++ extra).length ++ encodeNames (nd ++ extra))) ++ data.drop se := by
    rw [hgroup, ← hplen, List.drop_left]
  have hlay : out.drop (9 + (toLEB ((6 :: str_dylink) ++ (toLEB ms ++ toLEB ma ++ toLEB ts ++ toLEB 0 ++ toLEB (nd ++ extra).length ++ encodeNames (nd ++ extra))).length).length) =
      6 :: (str_dylink ++ (toLEB ms ++ (toLEB ma ++ (toLEB ts ++ (toLEB 0 ++
      (toLEB (nd ++ extra).length ++ (encodeNames (nd ++ extra) ++
      data.drop se))))))) := by
    rw [hdropB]
    simp [List.append_assoc]
  have hparse := parse_layout out _ (9 + (toLEB ((6 :: str_dylink) ++ (toLEB ms ++ toLEB ma ++ toLEB ts ++ toLEB 0 ++ toLEB (nd ++ extra).length ++ encodeNames (nd ++ extra))).length).length)
    ((6 :: str_dylink) ++ (toLEB ms ++ toLEB ma ++ toLEB ts ++ toLEB 0 ++ toLEB (nd ++ extra).length ++ encodeNames (nd ++ extra))).length ms ma ts 0 (nd ++ extra) (data.drop se) hopen rfl hlay
    hname_valid
  exact ⟨out, 9 + (toLEB ((6 :: str_dylink) ++ (toLEB ms ++ toLEB ma ++ toLEB ts ++ toLEB 0 ++ toLEB (nd ++ extra).length ++ encodeNames (nd ++ extra))).length).length + ((6 :: str_dylink) ++ (toLEB ms ++ toLEB ma ++ toLEB ts ++ toLEB 0 ++ toLEB (nd ++ extra).length ++ encodeNames (nd ++ extra))).length, hu, hparse⟩

end Wasm

namespace Wasm

theorem c1_dylink_round_trip_witness :
    ∃ out se2, update_dylink_section exDylink [[0x62]] = some out ∧
      parse_dylink_section out = some (16, 4, 8, 0, se2, [[0x61], [0x62]]) := by
  have h := c1_dylink_round_trip exDylink [[0x62]] 16 4 8 4 24 [[0x61]]
    (by decide) (by decide)
  simpa using h

end Wasm

namespace Wasm

/-! ### Import section layout lemmas -/

theorem readByteAt_layout {data : List Nat} {pos : Nat} {b : Nat}
    {rest : List Nat} (h : data.drop pos = b :: rest) :
    readByteAt data pos = some b := by
  have h0 : (data.drop pos)[0]? = some b := by rw [h]; simp
  simpa [readByteAt, List.getElem?_drop] using h0

theorem decodeSLEBFrom_layout {data : List Nat} {pos : Nat} {l rest : List Nat}
    (hok : isSLEBBytes l = true) (h : data.drop pos = l ++ rest) :
    ∃ v, decodeSLEBFrom data pos = some (v, pos + l.length) := by
  unfold isSLEBBytes at hok
  cases hd : decodeSLEB l with
  | none => rw [hd] at hok; cases hok
  | some vk =>
    obtain ⟨v, k⟩ := vk
    rw [hd] at hok
    have hk : k = l.length := by simpa using hok
    refine ⟨v, ?_⟩
    rw [decodeSLEBFrom, h, decodeSLEB_append rest hd, hk]

theorem readLimitsAt_layout {data : List Nat} {pos : Nat} {lim : Limits}
    {rest : List Nat} (h : data.drop pos = encodeLimits lim ++ rest) :
    ∃ l, readLimitsAt data pos = some (l, pos + (encodeLimits lim).length) := by
  have hb : readByteAt data pos = some lim.flags :=
    readByteAt_layout (show data.drop pos = lim.flags ::
      (toLEB lim.initial ++
        ((if lim.flags % 2 = 1 then toLEB lim.maximum else []) ++ rest)) from by
      rw [h]
      simp [encodeLimits, List.append_assoc])
  have hdrop1 : data.drop (pos + 1) = toLEB lim.initial ++
      ((if lim.flags % 2 = 1 then toLEB lim.maximum else []) ++ rest) := by
    have := drop_at data [lim.flags]
      (toLEB lim.initial ++
        ((if lim.flags % 2 = 1 then toLEB lim.maximum else []) ++ rest)) pos
      (by rw [h]; simp [encodeLimits, List.append_assoc])
    simpa using this
  have hinit := decodeULEBFrom_layout data (pos + 1) lim.initial _ hdrop1
  by_cases hfl : lim.flags % 2 = 1
  · have hdrop2 : data.drop (pos + 1 + (toLEB lim.initial).length) =
        toLEB lim.maximum ++ rest := by
      have := drop_at data (toLEB lim.initial) _ _ hdrop1
      rw [this]
      simp [hfl]
    have hmax := decodeULEBFrom_layout data _ lim.maximum _ hdrop2
    refine ⟨⟨lim.flags, lim.initial, lim.maximum⟩, ?_⟩
    simp only [readLimitsAt, hb, hinit, hfl, if_pos, hmax]
    simp [encodeLimits, hfl]
    all_goals omega
  · refine ⟨⟨lim.flags, lim.initial, 0⟩, ?_⟩
    simp only [readLimitsAt, hb, hinit, hfl, if_false, ite_false]
    simp [encodeLimits, hfl]
    all_goals omega

theorem externTypeOfNat_descKind (d : DescE) :
    externTypeOfNat (descKindNat d) = some (descExternType d) := by
  cases d <;> rfl

theorem externTypeOfNat_ge5 {k : Nat} (hk : 5 ≤ k) :
    externTypeOfNat k = none := by
  match k, hk with
  | (n + 5), _ => rfl

theorem skipImportDesc_layout {data : List Nat} {d : DescE} {pos : Nat}
    {rest : List Nat} (hok : descOk d = true)
    (h : data.drop pos = encodeDesc d ++ rest) :
    skipImportDesc data (descExternType d) pos =
      some (pos + (encodeDesc d).length) := by
  cases d with
  | func sig =>
    have := decodeULEBFrom_layout data pos sig rest h
    simp [skipImportDesc, descExternType, this, encodeDesc]
  | glob vb mb =>
    have hvb : isSLEBBytes vb = true := by simpa [descOk] using hok
    obtain ⟨v, hs⟩ := decodeSLEBFrom_layout hvb
      (by rw [h]; simp [encodeDesc, List.append_assoc] :
        data.drop pos = vb ++ (mb :: rest))
    have hbyte : readByteAt data (pos + vb.length) = some mb :=
      readByteAt_layout (drop_at data vb (mb :: rest) pos
        (by rw [h]; simp [encodeDesc, List.append_assoc]))
    simp only [skipImportDesc, descExternType, hs, hbyte]
    simp [encodeDesc]
    all_goals omega
  | mem lim =>
    obtain ⟨l, hl⟩ := readLimitsAt_layout
      (show data.drop pos = encodeLimits lim ++ rest from h)
    simp [skipImportDesc, descExternType, hl, encodeDesc]
  | table eb lim =>
    have heb : isSLEBBytes eb = true := by simpa [descOk] using hok
    obtain ⟨v, hs⟩ := decodeSLEBFrom_layout heb
      (by rw [h]; simp [encodeDesc, List.append_assoc] :
        data.drop pos = eb ++ (encodeLimits lim ++ rest))
    obtain ⟨l, hl⟩ := readLimitsAt_layout
      (drop_at data eb (encodeLimits lim ++ rest) pos
        (by rw [h]; simp [encodeDesc, List.append_assoc]))
    simp only [skipImportDesc, descExternType, hs, hl]
    simp [encodeDesc]
    all_goals omega

end Wasm

namespace Wasm

/-- The import entry loop on a region laid out as `entries` followed by
more bytes: the loop processes the encoded entries, producing their
`Import` records, and continues at the position after them with the
remaining count. -/
theorem readImportsLoop_layout (data : List Nat) : ∀ (entries : List ImportEntry)
    (n pos : Nat) (rest : List Nat),
    data.drop pos = encodeImportEntries entries ++ rest →
    (∀ e ∈ entries, entryOk e = true) →
    readImportsLoop data (entries.length + n) pos =
      (readImportsLoop data n
        (pos + (encodeImportEntries entries).length)).map
        (fun more => entries.map entryImport ++ more) := by
  intro entries
  induction entries with
  | nil =>
    intro n pos rest h hok
    simp only [List.length_nil, Nat.zero_add, encodeImportEntries,
      List.map_nil, List.nil_append, List.length_nil, Nat.add_zero]
    cases readImportsLoop data n pos <;> simp
  | cons e es ih =>
    intro n pos rest h hok
    have hok_e := hok e (by simp)
    obtain ⟨⟨hvm, hvf⟩, hdok⟩ :
        (validUtf8 e.mod = true ∧ validUtf8 e.fld = true) ∧
        descOk e.desc = true := by
      simpa [entryOk, Bool.and_eq_true] using hok_e
    have h0 : data.drop pos = toLEB e.mod.length ++ (e.mod ++
        (toLEB e.fld.length ++ (e.fld ++ (descKindNat e.desc ::
        (encodeDesc e.desc ++ (encodeImportEntries es ++ rest)))))) := by
      rw [h]
      simp [encodeImportEntries, encodeImportEntry, List.append_assoc]
    have hs1 := readStringAt_layout data pos e.mod _ hvm h0
    have hd1 := drop_at data e.mod _ _ (drop_at data (toLEB e.mod.length) _ _ h0)
    have hs2 := readStringAt_layout data
      (pos + (toLEB e.mod.length).length + e.mod.length) e.fld _ hvf hd1
    have hd2 := drop_at data e.fld _ _ (drop_at data (toLEB e.fld.length) _ _ hd1)
    have hbk := readByteAt_layout hd2
    have hd3 : data.drop (pos + (toLEB e.mod.length).length + e.mod.length +
        (toLEB e.fld.length).length + e.fld.length + 1) =
        encodeDesc e.desc ++ (encodeImportEntries es ++ rest) := by
      have := drop_at data [descKindNat e.desc] _ _ (by rw [hd2]; rfl)
      simpa using this
    have hskip := skipImportDesc_layout hdok hd3
    have hd4 := drop_at data (encodeDesc e.desc) _ _ hd3
    have hrec := ih n _ rest hd4 (fun t ht => hok t (by simp [ht]))
    have hPeq : pos + (toLEB e.mod.length).length + e.mod.length +
        (toLEB e.fld.length).length + e.fld.length + 1 +
        (encodeDesc e.desc).length + (encodeImportEntries es).length =
        pos + (encodeImportEntries (e :: es)).length := by
      simp [encodeImportEntries, encodeImportEntry, List.length_append]
      omega
    rw [show (e :: es).length + n = (es.length + n) + 1 by simp; omega]
    simp only [readImportsLoop, hs1, hs2, hbk, externTypeOfNat_descKind,
      hskip, hrec, hPeq]
    cases readImportsLoop data n (pos + (encodeImportEntries (e :: es)).length) with
    | none => simp
    | some more => simp [entryImport]

/-- The import entry loop fails on an entry whose kind byte is 4 (`Event`,
which reaches the `assert False` arm) or outside the enumeration. -/
theorem readImportsLoop_bad (data : List Nat) (mcount pos : Nat)
    (bm bf : List Nat) (k : Nat) (rest : List Nat)
    (hm : validUtf8 bm = true) (hf : validUtf8 bf = true) (hk : 4 ≤ k)
    (h : data.drop pos = toLEB bm.length ++ (bm ++ (toLEB bf.length ++
      (bf ++ (k :: rest))))) :
    readImportsLoop data (mcount + 1) pos = none := by
  have hs1 := readStringAt_layout data pos bm _ hm h
  have hd1 := drop_at data bm _ _ (drop_at data (toLEB bm.length) _ _ h)
  have hs2 := readStringAt_layout data
    (pos + (toLEB bm.length).length + bm.length) bf _ hf hd1
  have hd2 := drop_at data bf _ _ (drop_at data (toLEB bf.length) _ _ hd1)
  have hbk := readByteAt_layout hd2
  by_cases hk4 : k = 4
  · subst hk4
    simp [readImportsLoop, hs1, hs2, hbk, externTypeOfNat, skipImportDesc]
  · have hk5 : 5 ≤ k := by omega
    simp [readImportsLoop, hs1, hs2, hbk, externTypeOfNat_ge5 hk5]

/-- C2 (amended): for every module with a well-formed import section whose
entries all have kind bytes in {Function=0, Table=1, Memory=2, Global=3},
`get_imports` returns one `Import` record per entry, in file order, with
the matching kind, module name and field name, consuming each entry's
kind-specific payload to advance; an entry whose kind byte is outside the
enumeration {0,...,4} causes a fatal error — and so does an `Event`
(kind 4) entry, although 4 is inside the enumeration, because the payload
dispatch has no arm for it (`assert False`). -/
theorem c2_import_enumeration :
    (∀ (data : List Nat) (m : Module) (sec : Section)
      (entries : List ImportEntry) (rest : List Nat),
      openModule data = some m →
      m.section_map.lookup 2 = some sec →
      data.drop sec.offset = toLEB entries.length ++
        (encodeImportEntries entries ++ rest) →
      (∀ e ∈ entries, entryOk e = true) →
      get_imports data = some (entries.map entryImport)) ∧
    (∀ (data : List Nat) (m : Module) (sec : Section) (n : Nat)
      (entries : List ImportEntry) (bm bf : List Nat) (k : Nat)
      (rest : List Nat),
      openModule data = some m →
      m.section_map.lookup 2 = some sec →
      data.drop sec.offset = toLEB n ++ (encodeImportEntries entries ++
        (toLEB bm.length ++ (bm ++ (toLEB bf.length ++ (bf ++ (k :: rest)))))) →
      (∀ e ∈ entries, entryOk e = true) →
      validUtf8 bm = true → validUtf8 bf = true →
      entries.length + 1 ≤ n → 4 ≤ k →
      get_imports data = none) := by
  constructor
  · intro data m sec entries rest hm hlk hlay hok
    have hcnt := decodeULEBFrom_layout data sec.offset entries.length _ hlay
    have hd := drop_at data (toLEB entries.length) _ _ hlay
    have hloop := readImportsLoop_layout data entries 0 _ rest hd hok
    rw [Nat.add_zero] at hloop
    simp only [get_imports, hm, hlk, hcnt, hloop, readImportsLoop]
    simp
  · intro data m sec n entries bm bf k rest hm hlk hlay hok hbm hbf hn hk
    have hcnt := decodeULEBFrom_layout data sec.offset n _ hlay
    have hd := drop_at data (toLEB n) _ _ hlay
    have hloop := readImportsLoop_layout data entries (n - entries.length)
      _ _ hd hok
    rw [show entries.length + (n - entries.length) = n from by omega] at hloop
    have hd2 := drop_at data (encodeImportEntries entries) _ _ hd
    have hbad := readImportsLoop_bad data (n - entries.length - 1) _ bm bf k
      rest hbm hbf hk hd2
    rw [show n - entries.length = (n - entries.length - 1) + 1 from by omega]
      at hloop
    simp only [get_imports, hm, hlk, hcnt, hloop, hbad, Option.map_none']

/-- C2 counterexample: a well-formed module whose single import entry has
kind byte 4 — `Event`, inside the claim's closed enumeration — on which
`get_imports` raises (the `assert False` arm) instead of returning one
record per entry. -/
theorem c2_event_import_counterexample :
    get_imports exEventImport = none ∧
    (openModule exEventImport).isSome = true ∧
    exEventImport.drop 10 = [1, 0, 0, 4] := by
  decide

theorem c2_import_enumeration_witness :
    get_imports exImports4 = some (exEntries.map entryImport) ∧
    get_imports exBadKind = none := by
  constructor
  · exact c2_import_enumeration.1 exImports4
      ⟨exImports4, [⟨2, 29, 10⟩], [(2, ⟨2, 29, 10⟩)]⟩ ⟨2, 29, 10⟩
      exEntries [] (by decide) (by decide) (by decide) (by decide)
  · exact c2_import_enumeration.2 exBadKind
      ⟨exBadKind, [⟨2, 4, 10⟩], [(2, ⟨2, 4, 10⟩)]⟩ ⟨2, 4, 10⟩
      1 [] [] [] 9 [] (by decide) (by decide) (by decide) (by decide)
      (by decide) (by decide) (by decide) (by decide)

end Wasm
